import Mathlib

/-!
# Layer builder of `pkg/imagebuilder` and the `docker-receive` artifact publisher

A shallow embedding of `Builder.Build`, `Builder.CreateLayer`, `Builder.mksquashfs`
(`pkg/imagebuilder/builder.go`) and of `run` / `upload`
(`docker-receive/artifact/main.go`).

Go strings are Lean `String`s, slices are `List`s, Go maps with string keys are
association lists with overwrite-on-insert, and a Go `(value, error)` return is
an explicit result type.  Everything the code does to the outside world (the
cache directory, the diff provider, the packaging tool, the blob store, the
controller) is explicit state: the cache directory is a pair of finite maps, and
what the environment answers to each system call is read from an oracle that
is part of the state.
-/

namespace Flynn

/-! ## Data model -/

/-- Go `error` values, identified with their message. -/
abbrev Error := String

/-- Go `map[string]string`, newest binding first, at most one binding per key. -/
abbrev GoMap := List (String × String)

/-- Map read `m[k]` with the comma-ok flag. -/
def GoMap.get? (m : GoMap) (k : String) : Option String :=
  match m with
  | [] => none
  | (k', v) :: rest => if k' = k then some v else GoMap.get? rest k

/-- Map read `m[k]` which gives the zero value on a missing key. -/
def GoMap.get (m : GoMap) (k : String) : String := (GoMap.get? m k).getD ""

/-- Map write `m[k] = v`. -/
def GoMap.set (m : GoMap) (k v : String) : GoMap :=
  (k, v) :: m.filter (fun p => decide (p.1 ≠ k))

/-- Modelled from the spec: `ct.ImageLayer` of `controller/types`, whose
declaration is outside the sources at hand: `{type, length, hashes, url}`
(`Typ` is the Go field `Type`). -/
structure ImageLayer where
  Typ : String
  Length : Nat
  Hashes : GoMap
  URL : String
deriving DecidableEq, Repr

/-- Modelled from the spec: `ct.ImageEntrypoint`: `{workingDir, env, args}`. -/
structure ImageEntrypoint where
  WorkingDir : String
  Env : GoMap
  Args : List String
deriving DecidableEq, Repr

/-- Modelled from the spec: `ct.ImageRootfs`: a platform and its ordered layers. -/
structure ImageRootfs where
  Platform : String
  Layers : List ImageLayer
deriving DecidableEq, Repr

/-- Modelled from the spec: `ct.ImageManifest`: `{type, entrypoints, rootfs}`. -/
structure ImageManifest where
  Typ : String
  Entrypoints : List (String × ImageEntrypoint)
  Rootfs : List ImageRootfs
deriving DecidableEq, Repr

/-- Modelled from the spec: the constant `ct.ImageManifestTypeV1`. -/
def ImageManifestTypeV1 : String := "application/vnd.flynn.image.manifest.v1+json"

/-- Modelled from the spec: the constant `ct.ImageLayerTypeSquashfs`. -/
def ImageLayerTypeSquashfs : String := "application/vnd.flynn.image.squashfs.v1"

/-- Modelled from the spec: the constant `ct.DefaultImagePlatform`. -/
def DefaultImagePlatform : String := "linux/amd64"

/-- Modelled from the spec: one entry of the provider's history (`DiffRecord`):
the diff id and the tags pointing at it. -/
structure DiffRecord where
  ID : String
  Tags : List String
deriving DecidableEq, Repr

/-- Modelled from the spec: the part of the source image configuration that
`Build` reads, with `Entrypoint.Slice()` and `Cmd.Slice()` already taken. -/
structure ImageConfig where
  WorkingDir : String
  Env : List String
  Entrypoint : List String
  Cmd : List String
deriving DecidableEq, Repr

/-- Modelled from the spec: the image returned by `LookupImage`. -/
structure Image where
  Config : ImageConfig
deriving DecidableEq, Repr

/-- Modelled from the spec: the two lookups of `pinkerton.Context` that `Build`
performs. `History` lists the newest diff first, as `Build` walks it from its
last index down to index 0. -/
structure Context where
  LookupImage : String → Except Error Image
  History : String → Except Error (List DiffRecord)

/-! ## The cache directory and the environment -/

/-- A metadata file `<LayerDir>/<id>.json`, identified with what `json.Decode`
makes of it: the value left in the target and the decoder's error. -/
structure MetaFile where
  layer : ImageLayer
  decodeErr : Option Error
deriving DecidableEq, Repr

/-- What the packaging tool leaves in the temporary output file. -/
abbrev Blob := List Nat

/-- Observable steps of `CreateLayer`. -/
inductive Event where
  | lockAcquired (imageID : String)
  | lockReleased (imageID : String)
  | cacheHit (imageID : String)
  | diff (id : String)
  | untar (id : String)
  | mksquashfs
deriving DecidableEq, Repr

/-- The packager is the diff fetch, the untar and the `mksquashfs` run. -/
def Event.isPackager : Event → Bool
  | .diff _ => true
  | .untar _ => true
  | .mksquashfs => true
  | _ => false

/-- What the environment answers during one call of `CreateLayer`; `none` is a
nil error. -/
structure Ext where
  openLock : Option Error
  flock : Option Error
  /-- an `os.Open` error on the layer JSON other than "does not exist" -/
  openJSON : Option Error
  tempDir : Option Error
  diff : String → Option Error
  untar : String → Option Error
  tempFile : Option Error
  /-- the `mksquashfs` run: its error with the combined output, or the blob -/
  tool : Except (Error × String) Blob
  copy : Option Error
  rename : Option Error
  create : Option Error
  encode : Option Error
  /-- the metadata file a failed `Encode` leaves behind, as `json.Decode` reads it -/
  partialFile : MetaFile
  /-- the error of `os.Remove(layerJSON)` after a failed `Encode`, which the code discards -/
  remove : Option Error

/-- The cache directory `LayerDir` with the oracle of environment answers.
`metas` holds the `<id>.json` files by id, `blobs` the `<sha512>.squashfs`
files by hash; `tick` counts the calls of `CreateLayer`, the `tick`-th call
reads `oracle tick`. -/
structure World where
  metas : String → Option MetaFile
  blobs : String → Option Blob
  events : List Event
  oracle : Nat → Ext
  tick : Nat

/-- The builder; `Sha512Hex` stands for `hex.EncodeToString` of `crypto/sha512`. -/
structure Builder where
  LayerDir : String
  Context : Context
  Sha512Hex : Blob → String

/-- The pair returned by `CreateLayer`: a non-nil layer with a nil error, or an
error with the layer pointer that comes with it (nil except after a failed decode). -/
inductive LayerResult where
  | ok (layer : ImageLayer)
  | fail (layer : Option ImageLayer) (err : Error)
deriving DecidableEq, Repr

/-- The error of a result, `none` for nil. -/
def LayerResult.err : LayerResult → Option Error
  | .ok _ => none
  | .fail _ e => some e

def World.log (w : World) (e : Event) : World := { w with events := w.events ++ [e] }

def World.setMeta (w : World) (id : String) (f : Option MetaFile) : World :=
  { w with metas := fun k => if k = id then f else w.metas k }

def World.setBlob (w : World) (sha : String) (blob : Blob) : World :=
  { w with blobs := fun k => if k = sha then some blob else w.blobs k }

/-! ## `Builder.mksquashfs` and `Builder.CreateLayer` -/

/-- The body of `Builder.mksquashfs` (builder.go 146-176). -/
def Builder.mksquashfs (b : Builder) (x : Ext) (w : World) : Except Error ImageLayer × World :=
  match x.tempFile with
  | some err => (.error err, w)
  | none =>
    let w := w.log .mksquashfs
    match x.tool with
    | .error (err, out) => (.error ("mksquashfs error: " ++ err ++ ": " ++ out), w)
    | .ok blob =>
      match x.copy with
      | some err => (.error err, w)
      | none =>
        let length := blob.length
        let sha512 := b.Sha512Hex blob
        match x.rename with
        | some err => (.error err, w)
        | none =>
          (.ok { Typ := ImageLayerTypeSquashfs, Length := length,
                 Hashes := [("sha512", sha512)], URL := "" },
           w.setBlob sha512 blob)

/-- The loop `for _, id := range ids` of `CreateLayer` (builder.go 116-125):
the first error, if any, and the world it leaves. -/
def applyDiffs (x : Ext) : List String → World → Option Error × World
  | [], w => (none, w)
  | id :: rest, w =>
    let w := w.log (.diff id)
    match x.diff id with
    | some err => (some err, w)
    | none =>
      let w := w.log (.untar id)
      match x.untar id with
      | some err => (some err, w)
      | none => applyDiffs x rest w

/-- The index expression `ids[len(ids)-1]` of `CreateLayer` (builder.go 83),
the cache key of the chain; `none` when the index is out of range. -/
def imageID (ids : List String) : Option String := ids.getLast?

/-- The body of `Builder.CreateLayer` (builder.go 82-144). `none` is the
run-time panic of `ids[len(ids)-1]` on an empty slice. The record is absent
exactly when `os.Open` reports that it does not exist. After a failed `Encode`
the code calls `os.Remove` on the file just created and discards its error:
when the removal succeeds the record is gone, when it fails the file the
failed `Encode` left stays in the directory. The deferred unlock is logged on
every exit once the lock is held. -/
def Builder.CreateLayer (b : Builder) (w : World) (ids : List String) :
    Option (LayerResult × World) :=
  match imageID ids with
  | none => none
  | some imageID =>
    let x := w.oracle w.tick
    let w := { w with tick := w.tick + 1 }
    match x.openLock with
    | some err => some (.fail none err, w)
    | none =>
      match x.flock with
      | some err => some (.fail none err, w)
      | none =>
        let w := w.log (.lockAcquired imageID)
        match x.openJSON with
        | some err => some (.fail none err, w.log (.lockReleased imageID))
        | none =>
          match w.metas imageID with
          | some f =>
            let w := (w.log (.cacheHit imageID)).log (.lockReleased imageID)
            match f.decodeErr with
            | none => some (.ok f.layer, w)
            | some err => some (.fail (some f.layer) err, w)
          | none =>
            match x.tempDir with
            | some err => some (.fail none err, w.log (.lockReleased imageID))
            | none =>
              match applyDiffs x ids w with
              | (some err, w) => some (.fail none err, w.log (.lockReleased imageID))
              | (none, w) =>
                match b.mksquashfs x w with
                | (.error err, w) => some (.fail none err, w.log (.lockReleased imageID))
                | (.ok layer, w) =>
                  match x.create with
                  | some err => some (.fail none err, w.log (.lockReleased imageID))
                  | none =>
                    match x.encode with
                    | some err =>
                      match x.remove with
                      | none =>
                        some (.fail none err,
                          (w.setMeta imageID none).log (.lockReleased imageID))
                      | some _ =>
                        some (.fail none err,
                          (w.setMeta imageID (some x.partialFile)).log (.lockReleased imageID))
                    | none =>
                      some (.ok layer,
                        (w.setMeta imageID (some ⟨layer, none⟩)).log (.lockReleased imageID))

/-! ## `Builder.Build` -/

/-- One call of `CreateLayer` made by `Build`: the history entry the loop was
at, the id slice passed, and what came back. -/
structure Call where
  closing : DiffRecord
  ids : List String
  result : LayerResult
deriving DecidableEq, Repr

/-- How the loop of `Build` ends. -/
inductive LoopEnd where
  | done (layers : List ImageLayer)
  | failed (err : Error)
  | panicked
deriving DecidableEq, Repr

/-- The loop `for i := len(history) - 1; i >= 0; i--` of `Build`
(builder.go 39-50), over the entries still to visit (oldest first), with the
current `ids` and `layers`. Returns how it ends, the world, and the calls of
`CreateLayer` it made. -/
def buildLoop (b : Builder) (byTags : Bool) :
    List DiffRecord → List String → List ImageLayer → World → LoopEnd × World × List Call
  | [], _, layers, w => (.done layers, w, [])
  | layer :: rest, ids, layers, w =>
    let ids := ids ++ [layer.ID]
    if !byTags || layer.Tags.length > 0 then
      match b.CreateLayer w ids with
      | none => (.panicked, w, [])
      | some (.fail l err, w) => (.failed err, w, [⟨layer, ids, .fail l err⟩])
      | some (.ok l, w) =>
        let out := buildLoop b byTags rest [] (layers ++ [l]) w
        (out.1, out.2.1, ⟨layer, ids, .ok l⟩ :: out.2.2)
    else
      buildLoop b byTags rest ids layers w

/-- Index of the first occurrence of `sep`, splitting the text around it. -/
def cutAt (sep : Char) : List Char → Option (List Char × List Char)
  | [] => none
  | c :: cs =>
    if c = sep then some ([], cs)
    else (cutAt sep cs).map (fun p => (c :: p.1, p.2))

/-- The call `strings.SplitN(env, "=", 2)`. -/
def SplitN2 (s : String) : List String :=
  match cutAt '=' s.data with
  | none => [s]
  | some (k, v) => [String.mk k, String.mk v]

/-- The loop `for _, env := range image.Config.Env` of `Build` (builder.go 57-63). -/
def envLoop : List String → GoMap → GoMap
  | [], m => m
  | env :: rest, m =>
    match SplitN2 env with
    | [k, v] => envLoop rest (GoMap.set m k v)
    | _ => envLoop rest m

/-- The tail of `Build` (builder.go 52-72): the entrypoint and the manifest made
from the image configuration and the layers the loop built. -/
def assemble (image : Image) (layers : List ImageLayer) : ImageManifest :=
  let entrypoint : ImageEntrypoint :=
    { WorkingDir := image.Config.WorkingDir
      Env := envLoop image.Config.Env []
      Args := image.Config.Entrypoint ++ image.Config.Cmd }
  { Typ := ImageManifestTypeV1
    Entrypoints := [("_default", entrypoint)]
    Rootfs := [{ Platform := DefaultImagePlatform, Layers := layers }] }

/-- What `Build` returns: the manifest or the error, `none` after a panic. -/
structure BuildRun where
  result : Option (Except Error ImageManifest)
  world : World
  calls : List Call

/-- The body of `Builder.Build` (builder.go 26-73). -/
def Builder.Build (b : Builder) (name : String) (byTags : Bool) (w : World) : BuildRun :=
  match b.Context.LookupImage name with
  | .error err => ⟨some (.error err), w, []⟩
  | .ok image =>
    match b.Context.History name with
    | .error err => ⟨some (.error err), w, []⟩
    | .ok history =>
      match buildLoop b byTags history.reverse [] [] w with
      | (.panicked, w, calls) => ⟨none, w, calls⟩
      | (.failed err, w, calls) => ⟨some (.error err), w, calls⟩
      | (.done layers, w, calls) => ⟨some (.ok (assemble image layers)), w, calls⟩

/-- The id slices passed to `CreateLayer`, in call order. -/
def BuildRun.chains (r : BuildRun) : List (List String) := r.calls.map Call.ids

/-! ## Sample inputs -/

/-- An environment in which every step succeeds and the tool writes three bytes. -/
def okExt : Ext :=
  { openLock := none, flock := none, openJSON := none, tempDir := none,
    diff := fun _ => none, untar := fun _ => none, tempFile := none,
    tool := .ok [1, 2, 3], copy := none, rename := none, create := none, encode := none,
    partialFile := ⟨⟨"", 0, [], ""⟩, some "unexpected EOF"⟩, remove := none }

/-- An empty cache directory in an environment where everything succeeds. -/
def emptyWorld : World :=
  { metas := fun _ => none, blobs := fun _ => none, events := [],
    oracle := fun _ => okExt, tick := 0 }

/-- An empty cache directory in which the second call of `CreateLayer` cannot
take the lock and every other step succeeds. -/
def failingWorld : World :=
  { emptyWorld with
    oracle := fun n => if n = 1 then { okExt with flock := some "flock: interrupted" } else okExt }

/-- The history `[d1 untagged, d2 tagged "mid", d3 untagged]`, newest first. -/
def sampleHistory : List DiffRecord :=
  [⟨"d3", []⟩, ⟨"d2", ["mid"]⟩, ⟨"d1", []⟩]

/-- The history `[d1 untagged, d2 tagged "mid", d3 tagged "top"]`, newest first. -/
def taggedHistory : List DiffRecord :=
  [⟨"d3", ["top"]⟩, ⟨"d2", ["mid"]⟩, ⟨"d1", []⟩]

def sampleImage : Image :=
  { Config := { WorkingDir := "/app", Env := ["NOEQ", "A=x", "K=", "A=B=C"],
                Entrypoint := ["/bin/sh"], Cmd := ["-c", "run"] } }

def sampleBuilder : Builder :=
  { LayerDir := "/var/lib/flynn"
    Context := { LookupImage := fun _ => .ok sampleImage, History := fun _ => .ok sampleHistory }
    Sha512Hex := fun blob => String.join (blob.map toString) }

/-- The sample builder over the history whose newest diff is tagged. -/
def taggedBuilder : Builder :=
  { sampleBuilder with
    Context := { LookupImage := fun _ => .ok sampleImage, History := fun _ => .ok taggedHistory } }

/-! ## `run` and `upload` of `docker-receive/artifact` -/

/-- Modelled from the spec: `ct.Artifact`: `{id, type, uri, meta, manifest}`
(`Typ` is the Go field `Type`). -/
structure Artifact where
  ID : String
  Typ : String
  URI : String
  Meta : GoMap
  Manifest : ImageManifest
deriving DecidableEq, Repr

/-- Modelled from the spec: the constant `host.ArtifactTypeFlynn`. -/
def ArtifactTypeFlynn : String := "flynn"

/-- Modelled from the spec: what `run` reads of the `pinkerton.Ref` made from
the URL: the results of `DockerRef()`, `Name()` and `ID()`. -/
structure Ref where
  DockerRef : String
  Name : String
  ID : String
deriving DecidableEq, Repr

/-- The body handed to `upload`: the opened blob file of a layer, or bytes in
memory. -/
inductive Body where
  | file (id : String)
  | bytes (data : List Nat)
deriving DecidableEq, Repr

/-- External actions of `run`: a PUT request given to the HTTP client, and the
`CreateArtifact` call on the controller. -/
inductive Action where
  | put (body : Body) (url : String)
  | createArtifact (artifact : Artifact)
deriving DecidableEq, Repr

/-- Modelled from the spec: the two fields of `http.Response` that `upload`
reads, the status code and the status text such as `"200 OK"`. -/
structure Response where
  StatusCode : Nat
  Status : String
deriving DecidableEq, Repr

/-- What the environment answers to `run`. The transport and the controller
see the actions performed so far. `transport` gives the transport error or the
response. -/
structure Net where
  newClient : Option Error
  mkdirDocker : Option Error
  buildContext : Except Error Context
  mkdirLayers : Option Error
  newRef : String → Except Error Ref
  pullDocker : Option Error
  openBlob : String → Option Error
  newRequest : String → Option Error
  transport : List Action → String → Except Error Response
  marshal : ImageManifest → Except Error (List Nat)
  sha512hex : List Nat → String
  createArtifact : List Action → Artifact → Option Error

/-- How `run` ends: it returns an error (`none` for nil) or panics. -/
inductive RunEnd where
  | returned (err : Option Error)
  | panicked
deriving DecidableEq, Repr

/-- The constant `http.StatusOK`. -/
def StatusOK : Nat := 200

/-- The body of `upload` (main.go 111-126), with the actions so far. -/
def upload (n : Net) (trace : List Action) (data : Body) (url : String) :
    Option Error × List Action :=
  match n.newRequest url with
  | some err => (some err, trace)
  | none =>
    match n.transport trace url with
    | .error err => (some err, trace ++ [.put data url])
    | .ok res =>
      if res.StatusCode ≠ StatusOK then
        (some ("unexpected HTTP status: " ++ res.Status), trace ++ [.put data url])
      else (none, trace ++ [.put data url])

/-- The URL given to a layer (main.go 81). -/
def layerURL (layer : ImageLayer) : String :=
  "http://blobstore.discoverd/docker/layers/" ++ GoMap.get layer.Hashes "sha512" ++ ".squashfs"

/-- The call `os.Open(filepath.Join(layerDir, id+".squashfs"))` (main.go 76)
with `layerDir = "/var/lib/flynn"`: the blob file opens when it is in the cache
directory and the environment raises no error; a missing file gives the path
error of `os.Open`. -/
def openLayer (n : Net) (w : World) (id : String) : Option Error :=
  match n.openBlob id with
  | some err => some err
  | none =>
    if (w.blobs id).isNone then
      some ("open /var/lib/flynn/" ++ id ++ ".squashfs: no such file or directory")
    else none

/-- The loop `for _, layer := range image.Rootfs[0].Layers` of `run`
(main.go 74-85): the layers still to upload, the layers done (with their URL
set), the actions so far. -/
def uploadLayers (n : Net) (w : World) :
    List ImageLayer → List ImageLayer → List Action →
      Option Error × List ImageLayer × List Action
  | [], done, trace => (none, done, trace)
  | layer :: rest, done, trace =>
    let id := GoMap.get layer.Hashes "sha512"
    match openLayer n w id with
    | some err => (some err, done ++ layer :: rest, trace)
    | none =>
      let layer := { layer with URL := layerURL layer }
      match upload n trace (.file id) layer.URL with
      | (some err, trace) => (some err, done ++ layer :: rest, trace)
      | (none, trace) => uploadLayers n w rest (done ++ [layer]) trace

/-- The URL of the manifest (main.go 90-91). -/
def imageURL (n : Net) (imageData : List Nat) : String :=
  "http://blobstore.discoverd/docker/images/" ++ n.sha512hex imageData ++ ".json"

/-- The artifact `run` makes (main.go 98-107). -/
def newArtifact (ref : Ref) (image : ImageManifest) (imageURL : String) : Artifact :=
  { ID := ""
    Typ := ArtifactTypeFlynn
    URI := imageURL
    Meta := [("blobstore", "true"), ("docker-receive.repository", ref.Name),
             ("docker-receive.digest", ref.ID)]
    Manifest := image }

/-- The part of `run` after the build (main.go 73-108): upload of the layers
and of the manifest, then `CreateArtifact`. -/
def publish (n : Net) (w : World) (ref : Ref) (image : ImageManifest) :
    RunEnd × List Action :=
  match image.Rootfs with
  | [] => (.panicked, [])
  | rootfs :: others =>
    match uploadLayers n w rootfs.Layers [] [] with
    | (some err, _, trace) => (.returned (some err), trace)
    | (none, layers, trace) =>
      let image := { image with Rootfs := { rootfs with Layers := layers } :: others }
      match n.marshal image with
      | .error err => (.returned (some err), trace)
      | .ok imageData =>
        match upload n trace (.bytes imageData) (imageURL n imageData) with
        | (some err, trace) => (.returned (some err), trace)
        | (none, trace) =>
          let artifact := newArtifact ref image (imageURL n imageData)
          (.returned (n.createArtifact trace artifact), trace ++ [.createArtifact artifact])

/-- The body of `run` (main.go 34-109). -/
def run (n : Net) (w : World) (url : String) : RunEnd × List Action :=
  match n.newClient with
  | some err => (.returned (some err), [])
  | none =>
    match n.mkdirDocker with
    | some err => (.returned (some err), [])
    | none =>
      match n.buildContext with
      | .error err => (.returned (some err), [])
      | .ok context =>
        let layerDir := "/var/lib/flynn"
        match n.mkdirLayers with
        | some err => (.returned (some err), [])
        | none =>
          let builder : Builder :=
            { LayerDir := layerDir, Context := context, Sha512Hex := n.sha512hex }
          match n.newRef url with
          | .error err => (.returned (some err), [])
          | .ok ref =>
            match n.pullDocker with
            | some err => (.returned (some err), [])
            | none =>
              let built := builder.Build ref.DockerRef false w
              match built.result with
              | none => (.panicked, [])
              | some (.error err) => (.returned (some err), [])
              | some (.ok image) => publish n built.world ref image

/-- The PUT of `url` issued after the actions `trace` is answered with status 200. -/
def Answered200 (n : Net) (trace : List Action) (url : String) : Prop :=
  ∃ res, n.transport trace url = .ok res ∧ res.StatusCode = StatusOK

/-- The PUT of a layer, as `run` issues it. -/
def layerPut (layer : ImageLayer) : Action :=
  .put (.file (GoMap.get layer.Hashes "sha512")) (layerURL layer)

/-- A network in which every step succeeds and every PUT is answered 200. -/
def okNet : Net :=
  { newClient := none, mkdirDocker := none
    buildContext := .ok sampleBuilder.Context
    mkdirLayers := none
    newRef := fun url => .ok ⟨url, "repo", "digest"⟩
    pullDocker := none, openBlob := fun _ => none, newRequest := fun _ => none
    transport := fun _ _ => .ok ⟨200, "200 OK"⟩
    marshal := fun m => .ok [m.Rootfs.length]
    sha512hex := fun blob => String.join (blob.map toString)
    createArtifact := fun _ _ => none }

/-- The same network, where the second PUT is answered 503. -/
def flakyNet : Net :=
  { okNet with
    transport := fun trace _ =>
      if trace.length = 1 then .ok ⟨503, "503 Service Unavailable"⟩ else .ok ⟨200, "200 OK"⟩ }

/-- A layer as a metadata record holds it. -/
def cachedLayer : ImageLayer :=
  { Typ := ImageLayerTypeSquashfs, Length := 7, Hashes := [("sha512", "abc")], URL := "" }

/-- A cache directory holding the record of `d2` and its blob. -/
def hitWorld : World :=
  { emptyWorld with
    metas := fun k => if k = "d2" then some ⟨cachedLayer, none⟩ else none
    blobs := fun k => if k = "abc" then some [0, 0, 0, 0, 0, 0, 0] else none }

/-- An empty cache directory in which encoding the metadata record fails. -/
def encodeFailWorld : World :=
  { emptyWorld with oracle := fun _ => { okExt with encode := some "write: no space left" } }

/-- An empty cache directory in which encoding the metadata record fails and
the removal of the file fails too. -/
def removeFailWorld : World :=
  { emptyWorld with
    oracle := fun _ =>
      { okExt with encode := some "write: no space left"
                   remove := some "remove: read-only file system" } }

/-! ## Grouping of a history into chains -/

/-- The grouping the loop of `Build` performs, on the records themselves: the
entries still to visit (oldest first) and the pending entries. -/
def groups (byTags : Bool) : List DiffRecord → List DiffRecord → List (List DiffRecord)
  | [], _ => []
  | d :: rest, pending =>
    if !byTags || d.Tags.length > 0 then (pending ++ [d]) :: groups byTags rest []
    else groups byTags rest (pending ++ [d])

/-- The entry `e` contains `=`, `k` is its text before the first `=` and `v`
its text after it. -/
def IsBinding (e k v : String) : Prop := e = k ++ "=" ++ v ∧ '=' ∉ k.data

/-- The calls thread the world: each logged call is `CreateLayer` run on the
world the previous call left. -/
inductive Threaded (b : Builder) : World → List Call → World → Prop where
  | nil (w : World) : Threaded b w [] w
  | cons {w w1 w2 : World} {c : Call} {cs : List Call} :
      b.CreateLayer w c.ids = some (c.result, w1) → Threaded b w1 cs w2 →
      Threaded b w (c :: cs) w2

theorem groups_false (rest pending : List DiffRecord) :
    groups false rest pending =
      match rest with
      | [] => []
      | d :: r => (pending ++ [d]) :: r.map (fun e => [e]) := by
  induction rest generalizing pending with
  | nil => simp [groups]
  | cons d r ih =>
    simp only [groups, Bool.not_false, Bool.true_or, if_true]
    rw [ih]
    cases r <;> simp

theorem groups_false_nil (rest : List DiffRecord) :
    groups false rest [] = rest.map (fun e => [e]) := by
  rw [groups_false]
  cases rest <;> simp

theorem groups_join (byTags : Bool) (rest pending : List DiffRecord) :
    ∃ suffix, pending ++ rest = (groups byTags rest pending).flatten ++ suffix ∧
      (∀ d ∈ suffix, d ∈ pending ∨ d.Tags = []) ∧
      (∀ r d, rest = r ++ [d] → (byTags = false ∨ d.Tags ≠ []) → suffix = []) := by
  induction rest generalizing pending with
  | nil =>
    refine ⟨pending, by simp [groups], fun d hd => Or.inl hd, ?_⟩
    intro r d h
    simp at h
  | cons d rest ih =>
    by_cases hc : (!byTags || decide (d.Tags.length > 0)) = true
    · obtain ⟨suffix, h1, h2, h3⟩ := ih []
      refine ⟨suffix, ?_, ?_, ?_⟩
      · rw [groups, if_pos hc, List.flatten_cons, List.append_assoc, ← h1]
        simp
      · intro e he
        rcases h2 e he with h | h
        · simp at h
        · exact Or.inr h
      · intro r e hr hte
        cases r with
        | nil =>
          simp only [List.nil_append, List.cons.injEq] at hr
          obtain ⟨-, rfl⟩ := hr
          simp only [List.nil_append] at h1
          have : (groups byTags [] []) = [] := by simp [groups]
          rw [this] at h1
          simpa using h1.symm
        | cons a r =>
          simp only [List.cons_append, List.cons.injEq] at hr
          exact h3 r e hr.2 hte
    · obtain ⟨suffix, h1, h2, h3⟩ := ih (pending ++ [d])
      have htag : d.Tags = [] := by
        simp only [Bool.or_eq_true, Bool.not_eq_true', decide_eq_true_eq, not_or] at hc
        exact List.length_eq_zero.mp (by omega)
      have hbt : byTags = true := by
        simp only [Bool.or_eq_true, Bool.not_eq_true', decide_eq_true_eq, not_or] at hc
        simpa using hc.1
      refine ⟨suffix, ?_, ?_, ?_⟩
      · rw [groups, if_neg hc, ← h1]
        simp
      · intro e he
        rcases h2 e he with h | h
        · rcases List.mem_append.mp h with h | h
          · exact Or.inl h
          · simp only [List.mem_singleton] at h
            exact Or.inr (h ▸ htag)
        · exact Or.inr h
      · intro r e hr hte
        cases r with
        | nil =>
          simp only [List.nil_append, List.cons.injEq] at hr
          obtain ⟨rfl, -⟩ := hr
          rcases hte with h | h
          · simp [hbt] at h
          · exact absurd htag h
        | cons a r =>
          simp only [List.cons_append, List.cons.injEq] at hr
          exact h3 r e hr.2 hte

theorem groups_shape (rest pending : List DiffRecord) (hp : ∀ d ∈ pending, d.Tags = []) :
    ∀ g ∈ groups true rest pending,
      ∃ init last, g = init ++ [last] ∧ last.Tags ≠ [] ∧ ∀ d ∈ init, d.Tags = [] := by
  induction rest generalizing pending with
  | nil => simp [groups]
  | cons d rest ih =>
    intro g hg
    by_cases hc : d.Tags.length > 0
    · simp only [groups, Bool.not_true, Bool.false_or, hc, decide_True, if_true,
        List.mem_cons] at hg
      rcases hg with rfl | hg
      · exact ⟨pending, d, rfl, List.ne_nil_of_length_pos hc, hp⟩
      · exact ih [] (by simp) g hg
    · simp only [groups, Bool.not_true, Bool.false_or, hc, decide_False] at hg
      refine ih (pending ++ [d]) ?_ g hg
      intro e he
      rcases List.mem_append.mp he with h | h
      · exact hp e h
      · simp only [List.mem_singleton] at h
        subst h
        exact List.length_eq_zero.mp (by omega)

theorem CreateLayer_ne_none (b : Builder) (w : World) (ids : List String) (h : ids ≠ []) :
    b.CreateLayer w ids ≠ none := by
  have hk : ∃ k, imageID ids = some k := by
    cases hl : ids.getLast? with
    | none => exact absurd (List.getLast?_eq_none_iff.mp hl) h
    | some k => exact ⟨k, hl⟩
  obtain ⟨k, hk⟩ := hk
  unfold Builder.CreateLayer
  rw [hk]
  simp only
  repeat' split
  all_goals simp

theorem imageID_append (ids : List String) (id : String) : imageID (ids ++ [id]) = some id := by
  simp [imageID]

theorem buildLoop_spec (b : Builder) (byTags : Bool) :
    ∀ (rest pending : List DiffRecord) (layers : List ImageLayer) (w : World),
      Threaded b w (buildLoop b byTags rest (pending.map DiffRecord.ID) layers w).2.2
        (buildLoop b byTags rest (pending.map DiffRecord.ID) layers w).2.1 ∧
      (buildLoop b byTags rest (pending.map DiffRecord.ID) layers w).1 ≠ .panicked ∧
      (∀ c ∈ (buildLoop b byTags rest (pending.map DiffRecord.ID) layers w).2.2,
        c.ids ≠ [] ∧ imageID c.ids = some c.closing.ID ∧ c.closing ∈ rest ∧
          (byTags = true → c.closing.Tags ≠ [])) ∧
      ((buildLoop b byTags rest (pending.map DiffRecord.ID) layers w).2.2.map Call.ids <+:
        (groups byTags rest pending).map (List.map DiffRecord.ID)) ∧
      (∀ ls, (buildLoop b byTags rest (pending.map DiffRecord.ID) layers w).1 = .done ls →
        ∃ new, ls = layers ++ new ∧
          (buildLoop b byTags rest (pending.map DiffRecord.ID) layers w).2.2.map Call.result
            = new.map LayerResult.ok ∧
          (buildLoop b byTags rest (pending.map DiffRecord.ID) layers w).2.2.map Call.ids
            = (groups byTags rest pending).map (List.map DiffRecord.ID)) ∧
      (∀ err, (buildLoop b byTags rest (pending.map DiffRecord.ID) layers w).1 = .failed err →
        ∃ pre c l, (buildLoop b byTags rest (pending.map DiffRecord.ID) layers w).2.2 = pre ++ [c] ∧
          c.result = .fail l err ∧ ∀ c' ∈ pre, ∃ l', c'.result = .ok l') := by
  intro rest
  induction rest with
  | nil =>
    intro pending layers w
    simp only [buildLoop, groups]
    refine ⟨Threaded.nil w, by simp, by simp, by simp, ?_, by simp⟩
    intro ls hls
    simp only [LoopEnd.done.injEq] at hls
    exact ⟨[], by simp [hls], by simp, by simp⟩
  | cons d rest ih =>
    intro pending layers w
    have hids : pending.map DiffRecord.ID ++ [d.ID] = (pending ++ [d]).map DiffRecord.ID := by
      simp
    by_cases hc : (!byTags || decide (d.Tags.length > 0)) = true
    · have htag : byTags = true → d.Tags ≠ [] := by
        intro hb
        simp only [hb, Bool.not_true, Bool.false_or, decide_eq_true_eq] at hc
        exact List.ne_nil_of_length_pos hc
      cases hcl : b.CreateLayer w (pending.map DiffRecord.ID ++ [d.ID]) with
      | none => exact absurd hcl (CreateLayer_ne_none b w _ (by simp))
      | some p =>
        obtain ⟨r, w1⟩ := p
        cases r with
        | fail l err =>
          simp only [buildLoop, hc, if_true, hcl, groups]
          refine ⟨Threaded.cons hcl (Threaded.nil w1), by simp, ?_, ?_, by simp, ?_⟩
          · intro c hc'
            simp only [List.mem_singleton] at hc'
            subst hc'
            exact ⟨by simp, imageID_append _ _, by simp, htag⟩
          · rw [List.map_cons, List.map_cons (List.map DiffRecord.ID), ← hids]
            exact (List.prefix_cons_inj _).mpr List.nil_prefix
          · intro e he
            simp only [LoopEnd.failed.injEq] at he
            exact ⟨[], ⟨d, pending.map DiffRecord.ID ++ [d.ID], .fail l err⟩, l, rfl,
              by simp [he], by simp⟩
        | ok l =>
          obtain ⟨h1, h2, h3, h4, h5, h6⟩ := ih [] (layers ++ [l]) w1
          simp only [List.map_nil] at h1 h2 h3 h4 h5 h6
          simp only [buildLoop, hc, if_true, hcl, groups]
          refine ⟨Threaded.cons hcl h1, h2, ?_, ?_, ?_, ?_⟩
          · intro c hc'
            simp only [List.mem_cons] at hc'
            rcases hc' with rfl | hc'
            · exact ⟨by simp, imageID_append _ _, by simp, htag⟩
            · obtain ⟨a1, a2, a3, a4⟩ := h3 c hc'
              exact ⟨a1, a2, List.mem_cons_of_mem _ a3, a4⟩
          · simp only [List.map_cons, hids]
            exact (List.prefix_cons_inj _).mpr h4
          · intro ls hls
            obtain ⟨new, e1, e2, e3⟩ := h5 ls hls
            exact ⟨l :: new, by simp [e1], by simp [e2], by simp [e3]⟩
          · intro e he
            obtain ⟨pre, c, l', e1, e2, e3⟩ := h6 e he
            refine ⟨⟨d, pending.map DiffRecord.ID ++ [d.ID], .ok l⟩ :: pre, c, l',
              by simp [e1], e2, ?_⟩
            intro c' hc'
            simp only [List.mem_cons] at hc'
            rcases hc' with rfl | hc'
            · exact ⟨l, rfl⟩
            · exact e3 c' hc'
    · obtain ⟨h1, h2, h3, h4, h5, h6⟩ := ih (pending ++ [d]) layers w
      rw [← hids] at h1 h2 h3 h4 h5 h6
      simp only [buildLoop, hc, groups]
      refine ⟨h1, h2, ?_, h4, h5, h6⟩
      intro c hc'
      obtain ⟨a1, a2, a3, a4⟩ := h3 c hc'
      exact ⟨a1, a2, List.mem_cons_of_mem _ a3, a4⟩

/-- The run of `Build` in terms of its loop, once both lookups succeed. -/
theorem Build_eq_loop (b : Builder) (name : String) (byTags : Bool) (w : World)
    (image : Image) (history : List DiffRecord)
    (hl : b.Context.LookupImage name = .ok image)
    (hh : b.Context.History name = .ok history) :
    (b.Build name byTags w).calls = (buildLoop b byTags history.reverse [] [] w).2.2 ∧
    (b.Build name byTags w).world = (buildLoop b byTags history.reverse [] [] w).2.1 ∧
    (b.Build name byTags w).result =
      match (buildLoop b byTags history.reverse [] [] w).1 with
      | .panicked => none
      | .failed err => some (.error err)
      | .done layers => some (.ok (assemble image layers)) := by
  unfold Builder.Build
  rw [hl, hh]
  simp only
  rcases hloop : buildLoop b byTags history.reverse [] [] w with ⟨e, w1, calls⟩
  cases e <;> simp

/-- Every call succeeded exactly when the loop ran to its end. -/
theorem loop_done_of_calls_ok (b : Builder) (byTags : Bool) (rest pending : List DiffRecord)
    (layers : List ImageLayer) (w : World)
    (hok : ∀ c ∈ (buildLoop b byTags rest (pending.map DiffRecord.ID) layers w).2.2,
      c.result.err = none) :
    ∃ ls, (buildLoop b byTags rest (pending.map DiffRecord.ID) layers w).1 = .done ls := by
  obtain ⟨-, h2, -, -, -, h6⟩ := buildLoop_spec b byTags rest pending layers w
  cases he : (buildLoop b byTags rest (pending.map DiffRecord.ID) layers w).1 with
  | done ls => exact ⟨ls, rfl⟩
  | panicked => exact absurd he h2
  | failed err =>
    obtain ⟨pre, c, l, e1, e2, -⟩ := h6 err he
    have := hok c (by rw [e1]; simp)
    rw [e2] at this
    simp [LayerResult.err] at this

/-! ## Chain resolution -/

/-- C6: with `groupByTag = false` the id slices `Build` passes to `CreateLayer`
are singletons of the history's ids in chronological order (a prefix of them
in any run); when no `CreateLayer` call fails there are exactly as many chains
as diffs, the i-th being the singleton of the i-th oldest id, whatever the tags. -/
theorem C6_ungrouped_chains_are_singletons (b : Builder) (name : String) (w : World)
    (image : Image) (history : List DiffRecord)
    (hl : b.Context.LookupImage name = .ok image)
    (hh : b.Context.History name = .ok history) :
    (b.Build name false w).chains <+: history.reverse.map (fun d => [d.ID]) ∧
    ((∀ c ∈ (b.Build name false w).calls, c.result.err = none) →
      (b.Build name false w).chains = history.reverse.map (fun d => [d.ID]) ∧
      (b.Build name false w).chains.length = history.length) := by
  obtain ⟨hc, -, -⟩ := Build_eq_loop b name false w image history hl hh
  have hg : (groups false history.reverse []).map (List.map DiffRecord.ID)
      = history.reverse.map (fun d => [d.ID]) := by
    rw [groups_false]
    cases history.reverse <;> simp
  obtain ⟨-, -, -, h4, h5, -⟩ := buildLoop_spec b false history.reverse [] [] w
  simp only [List.map_nil] at h4 h5
  refine ⟨?_, ?_⟩
  · rw [BuildRun.chains, hc, ← hg]; exact h4
  · intro hok
    rw [hc] at hok
    obtain ⟨ls, hls⟩ := loop_done_of_calls_ok b false history.reverse [] [] w hok
    simp only [List.map_nil] at hls
    obtain ⟨new, -, -, e3⟩ := h5 ls hls
    have : (b.Build name false w).chains = history.reverse.map (fun d => [d.ID]) := by
      rw [BuildRun.chains, hc, e3, hg]
    exact ⟨this, by rw [this]; simp⟩

theorem C6_ungrouped_chains_witness :
    (sampleBuilder.Build "img" false emptyWorld).chains = [["d1"], ["d2"], ["d3"]] ∧
    (sampleBuilder.Build "img" false emptyWorld).chains.length = 3 :=
  (C6_ungrouped_chains_are_singletons sampleBuilder "img" emptyWorld sampleImage sampleHistory
    rfl rfl).2 (by decide)

/-- C1 (as stated, refuted): with `groupByTag = true` and the history
`[d1 untagged, d2 tagged "mid", d3 untagged]` every `CreateLayer` call succeeds,
the only chain built is `[d1, d2]`, and the chains do not cover the history:
`d3` is in no chain. -/
theorem C1_untagged_newest_diff_is_dropped :
    (∀ c ∈ (sampleBuilder.Build "img" true emptyWorld).calls, c.result.err = none) ∧
    (sampleBuilder.Build "img" true emptyWorld).chains = [["d1", "d2"]] ∧
    (sampleBuilder.Build "img" true emptyWorld).chains ≠ [["d1", "d2"], ["d3"]] ∧
    (sampleBuilder.Build "img" true emptyWorld).chains.flatten
      ≠ sampleHistory.reverse.map DiffRecord.ID := by
  decide

/-- The chains passed to `CreateLayer`, concatenated, are a prefix of the
chronological id sequence. -/
theorem Build_chains_flatten_initial (b : Builder) (name : String)
    (byTags : Bool) (w : World) (image : Image) (history : List DiffRecord)
    (hl : b.Context.LookupImage name = .ok image)
    (hh : b.Context.History name = .ok history) :
    (b.Build name byTags w).chains.flatten <+: history.reverse.map DiffRecord.ID := by
  obtain ⟨hc, -, -⟩ := Build_eq_loop b name byTags w image history hl hh
  obtain ⟨-, -, -, h4, -, -⟩ := buildLoop_spec b byTags history.reverse [] [] w
  simp only [List.map_nil] at h4
  obtain ⟨suffix, g1, -, -⟩ := groups_join byTags history.reverse []
  simp only [List.nil_append] at g1
  have hflat : ((groups byTags history.reverse []).map (List.map DiffRecord.ID)).flatten
      ++ suffix.map DiffRecord.ID = history.reverse.map DiffRecord.ID := by
    conv_rhs => rw [g1]
    rw [List.map_append, List.map_flatten]
  obtain ⟨t, ht⟩ := h4
  rw [BuildRun.chains, hc, ← hflat, ← ht, List.flatten_append, List.append_assoc]
  exact List.prefix_append _ _

/-- C1 (amended): the chains `Build` passes to `CreateLayer`, concatenated in
call order, are always a prefix of the chronological id sequence. When no call
fails the chains are the ids of consecutive segments of the chronological
history followed by a remainder that is in no chain: with `groupByTag` every
segment ends in a tagged diff and has only untagged diffs before it, so a chain
is closed only by a tagged diff, and the remainder is untagged; without
`groupByTag` every segment is a single diff. Nothing closes a chain after the
last diff: the remainder is empty, and the chains cover the whole history,
when `groupByTag` is false or the newest diff carries a tag. -/
theorem C1_chains_cover_history_when_newest_diff_closes (b : Builder) (name : String)
    (byTags : Bool) (w : World) (image : Image) (history : List DiffRecord)
    (hl : b.Context.LookupImage name = .ok image)
    (hh : b.Context.History name = .ok history) :
    (b.Build name byTags w).chains.flatten <+: history.reverse.map DiffRecord.ID ∧
    ((∀ c ∈ (b.Build name byTags w).calls, c.result.err = none) →
      ∃ (segs : List (List DiffRecord)) (suffix : List DiffRecord),
        history.reverse = segs.flatten ++ suffix ∧
        (b.Build name byTags w).chains = segs.map (List.map DiffRecord.ID) ∧
        (∀ g ∈ segs, ∃ init last, g = init ++ [last] ∧
          (byTags = true → last.Tags ≠ [] ∧ ∀ d ∈ init, d.Tags = []) ∧
          (byTags = false → init = [])) ∧
        (∀ d ∈ suffix, byTags = true ∧ d.Tags = []) ∧
        ((byTags = false ∨ ∀ d, history.head? = some d → d.Tags ≠ []) →
          suffix = [] ∧
          (b.Build name byTags w).chains.flatten = history.reverse.map DiffRecord.ID)) := by
  obtain ⟨hc, -, -⟩ := Build_eq_loop b name byTags w image history hl hh
  obtain ⟨-, -, -, -, h5, -⟩ := buildLoop_spec b byTags history.reverse [] [] w
  simp only [List.map_nil] at h5
  obtain ⟨suffix, g1, g2, g3⟩ := groups_join byTags history.reverse []
  simp only [List.nil_append] at g1
  refine ⟨Build_chains_flatten_initial b name byTags w image history hl hh, ?_⟩
  intro hok
  rw [hc] at hok
  obtain ⟨ls, hls⟩ := loop_done_of_calls_ok b byTags history.reverse [] [] w hok
  simp only [List.map_nil] at hls
  obtain ⟨new, -, -, e3⟩ := h5 ls hls
  have hchains : (b.Build name byTags w).chains
      = (groups byTags history.reverse []).map (List.map DiffRecord.ID) := by
    rw [BuildRun.chains, hc, e3]
  have hs : (byTags = false ∨ ∀ d, history.head? = some d → d.Tags ≠ []) → suffix = [] := by
    intro hnew
    cases hhist : history with
    | nil =>
      rw [hhist] at g1
      simp only [List.reverse_nil, groups, List.flatten_nil, List.nil_append] at g1
      exact g1.symm
    | cons d rest =>
      refine g3 rest.reverse d (by rw [hhist]; simp) ?_
      rcases hnew with h | h
      · exact Or.inl h
      · exact Or.inr (h d (by rw [hhist]; rfl))
  refine ⟨groups byTags history.reverse [], suffix, g1, hchains, ?_, ?_, ?_⟩
  · intro g hg
    cases byTags with
    | true =>
      obtain ⟨init, last, e, ht, hi⟩ := groups_shape history.reverse [] (by simp) g hg
      exact ⟨init, last, e, fun _ => ⟨ht, hi⟩, by simp⟩
    | false =>
      rw [groups_false_nil] at hg
      obtain ⟨d, -, rfl⟩ := List.mem_map.mp hg
      exact ⟨[], d, rfl, by simp, fun _ => rfl⟩
  · intro d hd
    cases hbt : byTags with
    | false =>
      rw [hs (Or.inl hbt)] at hd
      simp at hd
    | true =>
      rcases g2 d hd with h | h
      · simp at h
      · exact ⟨rfl, h⟩
  · intro hnew
    refine ⟨hs hnew, ?_⟩
    rw [hchains, ← List.map_flatten]
    conv_rhs => rw [g1]
    rw [hs hnew, List.append_nil]

theorem C1_chains_cover_history_witness :
    (taggedBuilder.Build "img" true emptyWorld).chains = [["d1", "d2"], ["d3"]] ∧
    ∃ (segs : List (List DiffRecord)) (suffix : List DiffRecord),
      taggedHistory.reverse = segs.flatten ++ suffix ∧
      (taggedBuilder.Build "img" true emptyWorld).chains = segs.map (List.map DiffRecord.ID) ∧
      (∀ g ∈ segs, ∃ init last, g = init ++ [last] ∧
        (true = true → last.Tags ≠ [] ∧ ∀ d ∈ init, d.Tags = []) ∧
        (true = false → init = [])) ∧
      (∀ d ∈ suffix, true = true ∧ d.Tags = []) ∧
      ((true = false ∨ ∀ d, taggedHistory.head? = some d → d.Tags ≠ []) →
        suffix = [] ∧
        (taggedBuilder.Build "img" true emptyWorld).chains.flatten
          = taggedHistory.reverse.map DiffRecord.ID) :=
  ⟨by decide,
    (C1_chains_cover_history_when_newest_diff_closes taggedBuilder "img" true emptyWorld
      sampleImage taggedHistory rfl rfl).2 (by decide)⟩

/-- C9: with `groupByTag = true`, in a run where no `CreateLayer` call fails,
the chains built are the tag-delimited segments of the chronological history up
to its newest tagged diff: each chain ends in a tagged diff and has no tagged
diff before it, the chains in order followed by an untagged remainder make up
the history, the remainder is in no chain, and a history without tags gives no
chain and a manifest without layers. -/
theorem C9_chains_are_tag_delimited_segments (b : Builder) (name : String) (w : World)
    (image : Image) (history : List DiffRecord)
    (hl : b.Context.LookupImage name = .ok image)
    (hh : b.Context.History name = .ok history)
    (hok : ∀ c ∈ (b.Build name true w).calls, c.result.err = none) :
    ∃ (segs : List (List DiffRecord)) (suffix : List DiffRecord),
      history.reverse = segs.flatten ++ suffix ∧
      (b.Build name true w).chains = segs.map (List.map DiffRecord.ID) ∧
      (∀ d ∈ suffix, d.Tags = []) ∧
      (∀ g ∈ segs, ∃ init last, g = init ++ [last] ∧ last.Tags ≠ [] ∧
        ∀ d ∈ init, d.Tags = []) ∧
      ((∀ d ∈ history, d.Tags = []) →
        (b.Build name true w).chains = [] ∧
        (b.Build name true w).result = some (.ok (assemble image []))) := by
  obtain ⟨hc, -, hr⟩ := Build_eq_loop b name true w image history hl hh
  obtain ⟨-, -, -, -, h5, -⟩ := buildLoop_spec b true history.reverse [] [] w
  simp only [List.map_nil] at h5
  rw [hc] at hok
  obtain ⟨ls, hls⟩ := loop_done_of_calls_ok b true history.reverse [] [] w hok
  simp only [List.map_nil] at hls
  obtain ⟨new, e1, e2, e3⟩ := h5 ls hls
  obtain ⟨suffix, g1, g2, -⟩ := groups_join true history.reverse []
  simp only [List.nil_append] at g1
  have hshape := groups_shape history.reverse [] (by simp)
  refine ⟨groups true history.reverse [], suffix, g1, by rw [BuildRun.chains, hc, e3], ?_,
    hshape, ?_⟩
  · intro d hd
    rcases g2 d hd with h | h
    · simp at h
    · exact h
  · intro hall
    have hnil : groups true history.reverse [] = [] := by
      cases hg : groups true history.reverse [] with
      | nil => rfl
      | cons g gs =>
        obtain ⟨init, last, e, ht, -⟩ := hshape g (by rw [hg]; simp)
        have hmem : last ∈ history.reverse := by
          rw [g1, hg, e]; simp
        exact absurd (hall last (List.mem_reverse.mp hmem)) ht
    have hcalls : (buildLoop b true history.reverse [] [] w).2.2 = [] := by
      rw [hnil] at e3
      simpa using e3
    have hnew : new = [] := by
      rw [hcalls] at e2
      simpa using e2.symm
    refine ⟨by rw [BuildRun.chains, hc, hcalls]; rfl, ?_⟩
    rw [hr, hls, e1, hnew]
    rfl

theorem C9_chains_are_tag_delimited_segments_witness :
    ∃ (segs : List (List DiffRecord)) (suffix : List DiffRecord),
      sampleHistory.reverse = segs.flatten ++ suffix ∧
      (sampleBuilder.Build "img" true emptyWorld).chains = segs.map (List.map DiffRecord.ID) ∧
      (∀ d ∈ suffix, d.Tags = []) ∧
      (∀ g ∈ segs, ∃ init last, g = init ++ [last] ∧ last.Tags ≠ [] ∧
        ∀ d ∈ init, d.Tags = []) ∧
      ((∀ d ∈ sampleHistory, d.Tags = []) →
        (sampleBuilder.Build "img" true emptyWorld).chains = [] ∧
        (sampleBuilder.Build "img" true emptyWorld).result
          = some (.ok (assemble sampleImage []))) :=
  C9_chains_are_tag_delimited_segments sampleBuilder "img" emptyWorld sampleImage
    sampleHistory rfl rfl (by decide)

/-- C10: `Build` never panics, and every id slice it passes to `CreateLayer` is
non-empty: the index expression `ids[len(ids)-1]` is in range and yields the id
of the history entry at which the loop made the call, the last id of the slice. -/
theorem C10_build_passes_nonempty_chains (b : Builder) (name : String) (byTags : Bool)
    (w : World) (image : Image) (history : List DiffRecord)
    (hl : b.Context.LookupImage name = .ok image)
    (hh : b.Context.History name = .ok history) :
    (b.Build name byTags w).result ≠ none ∧
    ∀ c ∈ (b.Build name byTags w).calls,
      c.ids ≠ [] ∧ imageID c.ids = some c.closing.ID ∧
      (∃ init, c.ids = init ++ [c.closing.ID]) ∧ c.closing ∈ history ∧
      (byTags = true → c.closing.Tags ≠ []) ∧
      ∀ w1, b.CreateLayer w1 c.ids ≠ none := by
  obtain ⟨hc, -, hr⟩ := Build_eq_loop b name byTags w image history hl hh
  obtain ⟨-, h2, h3, -, -, -⟩ := buildLoop_spec b byTags history.reverse [] [] w
  simp only [List.map_nil] at h2 h3
  refine ⟨?_, ?_⟩
  · rw [hr]
    cases he : (buildLoop b byTags history.reverse [] [] w).1 with
    | panicked => exact absurd he h2
    | done ls => simp
    | failed err => simp
  · intro c hcm
    rw [hc] at hcm
    obtain ⟨a1, a2, a3, a4⟩ := h3 c hcm
    refine ⟨a1, a2, ?_, List.mem_reverse.mp a3, a4, fun w1 => CreateLayer_ne_none b w1 _ a1⟩
    refine ⟨c.ids.dropLast, ?_⟩
    have := List.dropLast_append_getLast? c.closing.ID (by simpa [imageID] using a2)
    exact this.symm

theorem C10_build_passes_nonempty_chains_witness :
    (sampleBuilder.Build "img" true emptyWorld).result ≠ none ∧
    ∀ c ∈ (sampleBuilder.Build "img" true emptyWorld).calls,
      c.ids ≠ [] ∧ imageID c.ids = some c.closing.ID ∧
      (∃ init, c.ids = init ++ [c.closing.ID]) ∧ c.closing ∈ sampleHistory ∧
      (true = true → c.closing.Tags ≠ []) ∧
      ∀ w1, sampleBuilder.CreateLayer w1 c.ids ≠ none :=
  C10_build_passes_nonempty_chains sampleBuilder "img" true emptyWorld sampleImage
    sampleHistory rfl rfl

/-! ## Environment of the default entrypoint -/

theorem cutAt_some (c : Char) : ∀ (s a b : List Char), cutAt c s = some (a, b) →
    s = a ++ c :: b ∧ c ∉ a := by
  intro s
  induction s with
  | nil => intro a b h; simp [cutAt] at h
  | cons x xs ih =>
    intro a b h
    by_cases hx : x = c
    · simp only [cutAt, hx, if_true, Option.some.injEq, Prod.mk.injEq] at h
      obtain ⟨rfl, rfl⟩ := h
      simp [hx]
    · simp only [cutAt, hx, if_false, Option.map_eq_some', Prod.mk.injEq] at h
      obtain ⟨⟨a', b'⟩, h1, rfl, rfl⟩ := h
      obtain ⟨e1, e2⟩ := ih a' b' h1
      refine ⟨by simp [e1], ?_⟩
      simp only [List.mem_cons, not_or]
      exact ⟨fun h => hx h.symm, e2⟩

theorem cutAt_append (c : Char) : ∀ (a b : List Char), c ∉ a →
    cutAt c (a ++ c :: b) = some (a, b) := by
  intro a
  induction a with
  | nil => intro b _; simp [cutAt]
  | cons x xs ih =>
    intro b h
    simp only [List.mem_cons, not_or] at h
    have hx : ¬ x = c := fun e => h.1 e.symm
    simp [cutAt, hx, ih b h.2]

theorem isBinding_iff (e k v : String) :
    IsBinding e k v ↔ cutAt '=' e.data = some (k.data, v.data) := by
  unfold IsBinding
  constructor
  · rintro ⟨rfl, h⟩
    have : (k ++ "=" ++ v).data = k.data ++ '=' :: v.data := by
      simp [String.data_append]
    rw [this]
    exact cutAt_append _ _ _ h
  · intro h
    obtain ⟨e1, e2⟩ := cutAt_some _ _ _ _ h
    refine ⟨?_, e2⟩
    apply String.ext
    simp [String.data_append, e1]

theorem SplitN2_cases (e : String) :
    (∃ k v, SplitN2 e = [k, v] ∧ IsBinding e k v) ∨
    (SplitN2 e = [e] ∧ ∀ k v, ¬ IsBinding e k v) := by
  unfold SplitN2
  cases h : cutAt '=' e.data with
  | none =>
    right
    refine ⟨rfl, ?_⟩
    intro k v hb
    rw [isBinding_iff, h] at hb
    simp at hb
  | some p =>
    obtain ⟨a, b⟩ := p
    left
    exact ⟨⟨a⟩, ⟨b⟩, rfl, (isBinding_iff _ _ _).mpr h⟩

theorem isBinding_unique {e k v k' v' : String} (h : IsBinding e k v) (h' : IsBinding e k' v') :
    k = k' ∧ v = v' := by
  rw [isBinding_iff] at h h'
  rw [h] at h'
  simp only [Option.some.injEq, Prod.mk.injEq] at h'
  exact ⟨String.ext h'.1, String.ext h'.2⟩

theorem GoMap.get?_filter_ne (m : GoMap) (k k' : String) (h : k ≠ k') :
    GoMap.get? (m.filter (fun p => decide (p.1 ≠ k))) k' = GoMap.get? m k' := by
  induction m with
  | nil => rfl
  | cons p rest ih =>
    obtain ⟨a, b⟩ := p
    by_cases ha : a = k
    · have hf : ((a, b) :: rest).filter (fun p => decide (p.1 ≠ k))
          = rest.filter (fun p => decide (p.1 ≠ k)) := by
        rw [List.filter_cons]; simp [ha]
      have hak : ¬ a = k' := fun e => h (ha ▸ e)
      rw [hf, ih, GoMap.get?.eq_2, if_neg hak]
    · have hf : ((a, b) :: rest).filter (fun p => decide (p.1 ≠ k))
          = (a, b) :: rest.filter (fun p => decide (p.1 ≠ k)) := by
        rw [List.filter_cons]; simp [ha]
      rw [hf, GoMap.get?.eq_2, GoMap.get?.eq_2, ih]

theorem GoMap.get?_set (m : GoMap) (k v k' : String) :
    GoMap.get? (GoMap.set m k v) k' = if k = k' then some v else GoMap.get? m k' := by
  unfold GoMap.set
  rw [GoMap.get?.eq_2]
  by_cases h : k = k'
  · simp [h]
  · rw [if_neg h, if_neg h, GoMap.get?_filter_ne m k k' h]

theorem envLoop_get (envs : List String) : ∀ (m : GoMap) (k v : String),
    GoMap.get? (envLoop envs m) k = some v ↔
      (∃ pre e post, envs = pre ++ e :: post ∧ IsBinding e k v ∧
        ∀ e' ∈ post, ∀ v', ¬ IsBinding e' k v') ∨
      (GoMap.get? m k = some v ∧ ∀ e ∈ envs, ∀ v', ¬ IsBinding e k v') := by
  induction envs with
  | nil => intro m k v; simp [envLoop]
  | cons e rest ih =>
    intro m k v
    rcases SplitN2_cases e with ⟨k0, v0, hs, hb⟩ | ⟨hs, hb⟩
    · have hstep : envLoop (e :: rest) m = envLoop rest (GoMap.set m k0 v0) := by
        simp [envLoop, hs]
      rw [hstep, ih, GoMap.get?_set]
      constructor
      · rintro (⟨pre, e', post, h1, h2, h3⟩ | ⟨h1, h2⟩)
        · exact Or.inl ⟨e :: pre, e', post, by simp [h1], h2, h3⟩
        · by_cases hk : k0 = k
          · subst hk
            simp only [if_true, Option.some.injEq] at h1
            subst h1
            exact Or.inl ⟨[], e, rest, rfl, hb, h2⟩
          · simp only [hk, if_false] at h1
            refine Or.inr ⟨h1, ?_⟩
            intro e' he' v' hb'
            simp only [List.mem_cons] at he'
            rcases he' with rfl | he'
            · exact hk (isBinding_unique hb hb').1
            · exact h2 e' he' v' hb'
      · rintro (⟨pre, e', post, h1, h2, h3⟩ | ⟨h1, h2⟩)
        · cases pre with
          | nil =>
            simp only [List.nil_append, List.cons.injEq] at h1
            obtain ⟨rfl, rfl⟩ := h1
            obtain ⟨rfl, rfl⟩ := isBinding_unique hb h2
            exact Or.inr ⟨by simp, h3⟩
          | cons x pre =>
            simp only [List.cons_append, List.cons.injEq] at h1
            exact Or.inl ⟨pre, e', post, h1.2, h2, h3⟩
        · have hk : ¬ k0 = k := by
            intro hk
            subst hk
            exact h2 e (by simp) v0 hb
          rw [if_neg hk]
          exact Or.inr ⟨h1, fun e' he' => h2 e' (List.mem_cons_of_mem _ he')⟩
    · have hstep : envLoop (e :: rest) m = envLoop rest m := by
        rw [envLoop, hs]
      rw [hstep, ih]
      constructor
      · rintro (⟨pre, e', post, h1, h2, h3⟩ | ⟨h1, h2⟩)
        · exact Or.inl ⟨e :: pre, e', post, by simp [h1], h2, h3⟩
        · refine Or.inr ⟨h1, ?_⟩
          intro e' he' v'
          simp only [List.mem_cons] at he'
          rcases he' with rfl | he'
          · exact hb k v'
          · exact h2 e' he' v'
      · rintro (⟨pre, e', post, h1, h2, h3⟩ | ⟨h1, h2⟩)
        · cases pre with
          | nil =>
            simp only [List.nil_append, List.cons.injEq] at h1
            obtain ⟨rfl, rfl⟩ := h1
            exact absurd h2 (hb k v)
          | cons x pre =>
            simp only [List.cons_append, List.cons.injEq] at h1
            exact Or.inl ⟨pre, e', post, h1.2, h2, h3⟩
        · exact Or.inr ⟨h1, fun e' he' => h2 e' (List.mem_cons_of_mem _ he')⟩

theorem exists_last_binding (k : String) : ∀ (envs : List String),
    (∃ e ∈ envs, ∃ v, IsBinding e k v) →
    ∃ pre e post v, envs = pre ++ e :: post ∧ IsBinding e k v ∧
      ∀ e' ∈ post, ∀ v', ¬ IsBinding e' k v' := by
  intro envs
  induction envs with
  | nil => simp
  | cons e rest ih =>
    rintro ⟨e0, he0, v0, hb0⟩
    by_cases hr : ∃ e' ∈ rest, ∃ v, IsBinding e' k v
    · obtain ⟨pre, e', post, v, h1, h2, h3⟩ := ih hr
      exact ⟨e :: pre, e', post, v, by simp [h1], h2, h3⟩
    · simp only [List.mem_cons] at he0
      rcases he0 with rfl | he0
      · refine ⟨[], e0, rest, v0, rfl, hb0, ?_⟩
        intro e' he' v' hb'
        exact hr ⟨e', he', v', hb'⟩
      · exact absurd ⟨e0, he0, v0, hb0⟩ hr

/-- C4: in the manifest `Build` returns, the env map of the `_default`
entrypoint has a key `k` exactly when some source entry contains `=` with `k`
before its first `=`, and the value at `k` is the text after the first `=` of
the last such entry; entries without `=` bind nothing. -/
theorem C4_default_env_holds_last_binding_of_each_key (b : Builder) (name : String)
    (byTags : Bool) (w : World) (image : Image) (history : List DiffRecord)
    (m : ImageManifest)
    (hl : b.Context.LookupImage name = .ok image)
    (hh : b.Context.History name = .ok history)
    (hm : (b.Build name byTags w).result = some (.ok m)) :
    ∃ ep, m.Entrypoints = [("_default", ep)] ∧
      (∀ k, (∃ v, GoMap.get? ep.Env k = some v) ↔
        ∃ e ∈ image.Config.Env, ∃ v, IsBinding e k v) ∧
      (∀ k v, GoMap.get? ep.Env k = some v ↔
        ∃ pre e post, image.Config.Env = pre ++ e :: post ∧ IsBinding e k v ∧
          ∀ e' ∈ post, ∀ v', ¬ IsBinding e' k v') ∧
      (∀ e k v, '=' ∉ e.data → ¬ IsBinding e k v) := by
  obtain ⟨-, -, hr⟩ := Build_eq_loop b name byTags w image history hl hh
  rw [hr] at hm
  have hval : ∀ k v, GoMap.get? (envLoop image.Config.Env []) k = some v ↔
      ∃ pre e post, image.Config.Env = pre ++ e :: post ∧ IsBinding e k v ∧
        ∀ e' ∈ post, ∀ v', ¬ IsBinding e' k v' := by
    intro k v
    rw [envLoop_get]
    simp [GoMap.get?]
  cases he : (buildLoop b byTags history.reverse [] [] w).1 with
  | panicked => rw [he] at hm; simp at hm
  | failed err => rw [he] at hm; simp at hm
  | done ls =>
    rw [he] at hm
    simp only [Option.some.injEq, Except.ok.injEq] at hm
    subst hm
    refine ⟨_, rfl, ?_, hval, ?_⟩
    · intro k
      constructor
      · rintro ⟨v, hv⟩
        obtain ⟨pre, e, post, h1, h2, -⟩ := (hval k v).mp hv
        exact ⟨e, by rw [h1]; simp, v, h2⟩
      · intro h
        obtain ⟨pre, e, post, v, h1, h2, h3⟩ := exists_last_binding k _ h
        exact ⟨v, (hval k v).mpr ⟨pre, e, post, h1, h2, h3⟩⟩
    · intro e k v hne hb
      obtain ⟨e1, -⟩ := hb
      apply hne
      rw [e1]
      simp [String.data_append]

theorem C4_default_env_witness :
    ∃ ep, (assemble sampleImage [⟨ImageLayerTypeSquashfs, 3, [("sha512", "123")], ""⟩]).Entrypoints
        = [("_default", ep)] ∧
      (∀ k, (∃ v, GoMap.get? ep.Env k = some v) ↔
        ∃ e ∈ sampleImage.Config.Env, ∃ v, IsBinding e k v) ∧
      (∀ k v, GoMap.get? ep.Env k = some v ↔
        ∃ pre e post, sampleImage.Config.Env = pre ++ e :: post ∧ IsBinding e k v ∧
          ∀ e' ∈ post, ∀ v', ¬ IsBinding e' k v') ∧
      (∀ e k v, '=' ∉ e.data → ¬ IsBinding e k v) :=
  C4_default_env_holds_last_binding_of_each_key sampleBuilder "img" true emptyWorld
    sampleImage sampleHistory _ rfl rfl rfl

/-! ## Layers of the manifest -/

/-- C5: the chains the history resolves to are `groups byTags` of the
chronological history (every diff its own chain without `groupByTag`, the
tag-delimited segments with it). The calls `Build` logs are `CreateLayer` run
on these chains one after the other, in chronological order, each on the world
the previous call left. If every call succeeds there is exactly one call per
resolved chain and `Build` returns a manifest with exactly one rootfs entry
whose i-th layer is the result of the call on the i-th chain; if a call fails
`Build` returns that error and no manifest, and that call is the last one, so
no later chain is built. -/
theorem C5_manifest_layers_are_call_results (b : Builder) (name : String) (byTags : Bool)
    (w : World) (image : Image) (history : List DiffRecord)
    (hl : b.Context.LookupImage name = .ok image)
    (hh : b.Context.History name = .ok history) :
    Threaded b w (b.Build name byTags w).calls (b.Build name byTags w).world ∧
    (b.Build name byTags w).chains
      <+: (groups byTags history.reverse []).map (List.map DiffRecord.ID) ∧
    (b.Build name byTags w).chains.flatten <+: history.reverse.map DiffRecord.ID ∧
    ((∀ c ∈ (b.Build name byTags w).calls, c.result.err = none) →
      ∃ layers m, (b.Build name byTags w).result = some (.ok m) ∧
        m.Rootfs = [⟨DefaultImagePlatform, layers⟩] ∧
        (b.Build name byTags w).chains
          = (groups byTags history.reverse []).map (List.map DiffRecord.ID) ∧
        (b.Build name byTags w).calls.map Call.result = layers.map LayerResult.ok ∧
        layers.length = (groups byTags history.reverse []).length ∧
        layers.length = (b.Build name byTags w).chains.length) ∧
    (∀ c ∈ (b.Build name byTags w).calls, ∀ err, c.result.err = some err →
      (b.Build name byTags w).result = some (.error err) ∧
      ∃ pre, (b.Build name byTags w).calls = pre ++ [c] ∧
        ∀ c' ∈ pre, c'.result.err = none) := by
  obtain ⟨hc, hw, hr⟩ := Build_eq_loop b name byTags w image history hl hh
  obtain ⟨h1, h2, -, h4, h5, h6⟩ := buildLoop_spec b byTags history.reverse [] [] w
  simp only [List.map_nil] at h1 h2 h4 h5 h6
  refine ⟨by rw [hc, hw]; exact h1, by rw [BuildRun.chains, hc]; exact h4,
    Build_chains_flatten_initial b name byTags w image history hl hh, ?_, ?_⟩
  · intro hok
    rw [hc] at hok
    obtain ⟨ls, hls⟩ := loop_done_of_calls_ok b byTags history.reverse [] [] w hok
    simp only [List.map_nil] at hls
    obtain ⟨new, e1, e2, e3⟩ := h5 ls hls
    simp only [List.nil_append] at e1
    subst e1
    have hlen : ls.length = (buildLoop b byTags history.reverse [] [] w).2.2.length := by
      have := congrArg List.length e2
      simp only [List.length_map] at this
      exact this.symm
    have hlen2 : (buildLoop b byTags history.reverse [] [] w).2.2.length
        = (groups byTags history.reverse []).length := by
      have := congrArg List.length e3
      simpa only [List.length_map] using this
    refine ⟨ls, assemble image ls, by rw [hr, hls], rfl, by rw [BuildRun.chains, hc, e3],
      by rw [hc, e2], by rw [hlen, hlen2], ?_⟩
    rw [BuildRun.chains, hc, List.length_map, hlen]
  · intro c hcm err herr
    rw [hc] at hcm
    cases he : (buildLoop b byTags history.reverse [] [] w).1 with
    | panicked => exact absurd he h2
    | done ls =>
      obtain ⟨new, -, e2, -⟩ := h5 ls he
      have hm : c.result ∈ List.map Call.result (buildLoop b byTags history.reverse [] [] w).2.2 :=
        List.mem_map_of_mem _ hcm
      rw [e2, List.mem_map] at hm
      obtain ⟨l, -, hl'⟩ := hm
      rw [← hl'] at herr
      simp [LayerResult.err] at herr
    | failed err' =>
      obtain ⟨pre, c0, l, e1, e2, e3⟩ := h6 err' he
      have hpre : ∀ c' ∈ pre, c'.result.err = none := by
        intro c' hc'
        obtain ⟨l', hl'⟩ := e3 c' hc'
        rw [hl']; rfl
      rw [e1, List.mem_append, List.mem_singleton] at hcm
      rcases hcm with hcm | rfl
      · rw [hpre c hcm] at herr
        simp at herr
      · rw [e2] at herr
        simp only [LayerResult.err, Option.some.injEq] at herr
        subst herr
        exact ⟨by rw [hr, he], pre, by rw [hc, e1], hpre⟩

theorem C5_manifest_layers_witness :
    ((groups true sampleHistory.reverse []).map (List.map DiffRecord.ID) = [["d1", "d2"]] ∧
      (sampleBuilder.Build "img" true emptyWorld).result = some (.ok (assemble sampleImage
        [⟨ImageLayerTypeSquashfs, 3, [("sha512", "123")], ""⟩]))) ∧
    (Threaded sampleBuilder emptyWorld (sampleBuilder.Build "img" true emptyWorld).calls
      (sampleBuilder.Build "img" true emptyWorld).world ∧
    (sampleBuilder.Build "img" true emptyWorld).chains
      <+: (groups true sampleHistory.reverse []).map (List.map DiffRecord.ID) ∧
    (sampleBuilder.Build "img" true emptyWorld).chains.flatten
      <+: sampleHistory.reverse.map DiffRecord.ID ∧
    ((∀ c ∈ (sampleBuilder.Build "img" true emptyWorld).calls, c.result.err = none) →
      ∃ layers m, (sampleBuilder.Build "img" true emptyWorld).result = some (.ok m) ∧
        m.Rootfs = [⟨DefaultImagePlatform, layers⟩] ∧
        (sampleBuilder.Build "img" true emptyWorld).chains
          = (groups true sampleHistory.reverse []).map (List.map DiffRecord.ID) ∧
        (sampleBuilder.Build "img" true emptyWorld).calls.map Call.result
          = layers.map LayerResult.ok ∧
        layers.length = (groups true sampleHistory.reverse []).length ∧
        layers.length = (sampleBuilder.Build "img" true emptyWorld).chains.length) ∧
    (∀ c ∈ (sampleBuilder.Build "img" true emptyWorld).calls, ∀ err,
      c.result.err = some err →
      (sampleBuilder.Build "img" true emptyWorld).result = some (.error err) ∧
      ∃ pre, (sampleBuilder.Build "img" true emptyWorld).calls = pre ++ [c] ∧
        ∀ c' ∈ pre, c'.result.err = none)) ∧
    ((groups false sampleHistory.reverse []).map (List.map DiffRecord.ID)
        = [["d1"], ["d2"], ["d3"]] ∧
      (sampleBuilder.Build "img" false failingWorld).chains = [["d1"], ["d2"]] ∧
      (sampleBuilder.Build "img" false failingWorld).result
        = some (.error "flock: interrupted")) :=
  ⟨⟨by decide, rfl⟩,
    C5_manifest_layers_are_call_results sampleBuilder "img" true emptyWorld sampleImage
      sampleHistory rfl rfl,
    ⟨by decide, by decide, rfl⟩⟩

/-! ## The layer cache -/

theorem applyDiffs_frame (x : Ext) : ∀ (ids : List String) (w : World),
    (applyDiffs x ids w).2.metas = w.metas ∧ (applyDiffs x ids w).2.blobs = w.blobs ∧
    ∃ new, (applyDiffs x ids w).2.events = w.events ++ new ∧
      ∀ e ∈ new, e.isPackager = true := by
  intro ids
  induction ids with
  | nil => intro w; exact ⟨rfl, rfl, [], by simp [applyDiffs], by simp⟩
  | cons id rest ih =>
    intro w
    unfold applyDiffs
    simp only
    split
    · exact ⟨rfl, rfl, [.diff id], rfl, by simp [Event.isPackager]⟩
    · split
      · exact ⟨rfl, rfl, [.diff id, .untar id], by simp [World.log], by simp [Event.isPackager]⟩
      · obtain ⟨h1, h2, new, h3, h4⟩ := ih ((w.log (.diff id)).log (.untar id))
        refine ⟨h1, h2, [.diff id, .untar id] ++ new, by rw [h3]; simp [World.log], ?_⟩
        intro e he
        simp only [List.cons_append, List.nil_append, List.mem_cons] at he
        rcases he with rfl | rfl | he
        · rfl
        · rfl
        · exact h4 e he

theorem applyDiffs_ok (x : Ext) : ∀ (ids : List String) (w : World),
    (∀ id ∈ ids, x.diff id = none ∧ x.untar id = none) → (applyDiffs x ids w).1 = none := by
  intro ids
  induction ids with
  | nil => intro w _; rfl
  | cons id rest ih =>
    intro w h
    unfold applyDiffs
    simp only [(h id (by simp)).1, (h id (by simp)).2]
    exact ih _ (fun i hi => h i (List.mem_cons_of_mem _ hi))

theorem mksquashfs_frame (b : Builder) (x : Ext) (w : World) :
    (b.mksquashfs x w).2.metas = w.metas ∧
    ∃ new, (b.mksquashfs x w).2.events = w.events ++ new ∧ ∀ e ∈ new, e.isPackager = true := by
  unfold Builder.mksquashfs
  repeat' split
  · exact ⟨rfl, [], by simp, by simp⟩
  all_goals exact ⟨rfl, [.mksquashfs], rfl, by simp [Event.isPackager]⟩

/-- C2: when the terminal id of a non-empty chain has a metadata record that
decodes, `CreateLayer` runs no packager step (no diff fetch, no untar, no
`mksquashfs`) and leaves every metadata record and every blob file as it was;
once the lease is taken and the record opens, it returns exactly the layer
decoded from the record, with a nil error, after the three steps lock, hit,
unlock. -/
theorem C2_cache_hit_returns_record_without_packaging (b : Builder) (w : World) (ids : List String) (key : String) (l : ImageLayer)
    (hkey : imageID ids = some key)
    (hrec : w.metas key = some ⟨l, none⟩) :
    ∃ r w', b.CreateLayer w ids = some (r, w') ∧
      w'.metas = w.metas ∧ w'.blobs = w.blobs ∧
      (∃ new, w'.events = w.events ++ new ∧ ∀ e ∈ new, e.isPackager = false) ∧
      ((w.oracle w.tick).openLock = none → (w.oracle w.tick).flock = none →
        (w.oracle w.tick).openJSON = none →
        r = .ok l ∧
        w'.events = w.events ++ [.lockAcquired key, .cacheHit key, .lockReleased key]) := by
  unfold Builder.CreateLayer
  rw [hkey]
  simp only
  cases h1 : (w.oracle w.tick).openLock with
  | some err =>
    exact ⟨_, _, rfl, rfl, rfl, ⟨[], by simp, by simp⟩, by simp⟩
  | none =>
    cases h2 : (w.oracle w.tick).flock with
    | some err =>
      exact ⟨_, _, rfl, rfl, rfl, ⟨[], by simp, by simp⟩, by simp⟩
    | none =>
      cases h3 : (w.oracle w.tick).openJSON with
      | some err =>
        refine ⟨_, _, rfl, rfl, rfl, ⟨[.lockAcquired key, .lockReleased key], ?_, ?_⟩, by simp⟩
        · simp [World.log]
        · simp [Event.isPackager]
      | none =>
        simp only [World.log, hrec]
        refine ⟨_, _, rfl, rfl, rfl,
          ⟨[.lockAcquired key, .cacheHit key, .lockReleased key], ?_, ?_⟩, ?_⟩
        · simp
        · simp [Event.isPackager]
        · simp

theorem C2_cache_hit_witness :
    ∃ w', sampleBuilder.CreateLayer hitWorld ["d1", "d2"] = some (.ok cachedLayer, w') ∧
      w'.metas = hitWorld.metas ∧ w'.blobs = hitWorld.blobs ∧
      w'.events = [.lockAcquired "d2", .cacheHit "d2", .lockReleased "d2"] :=
  match C2_cache_hit_returns_record_without_packaging sampleBuilder hitWorld ["d1", "d2"] "d2"
    cachedLayer rfl rfl with
  | ⟨_, w', hcall, hm, hb, _, hr⟩ =>
    ⟨w', (hr rfl rfl rfl).1 ▸ hcall, hm, hb, (hr rfl rfl rfl).2⟩

theorem mksquashfs_ok (b : Builder) (x : Ext) (w : World) (blob : Blob)
    (htf : x.tempFile = none) (htool : x.tool = .ok blob) (hcopy : x.copy = none)
    (hren : x.rename = none) :
    b.mksquashfs x w =
      (.ok { Typ := ImageLayerTypeSquashfs, Length := blob.length,
             Hashes := [("sha512", b.Sha512Hex blob)], URL := "" },
       (w.log .mksquashfs).setBlob (b.Sha512Hex blob) blob) := by
  unfold Builder.mksquashfs
  simp only [htf, htool, hcopy, hren]

/-- On a miss no cache-hit step is taken, whatever the environment answers. -/
theorem CreateLayer_miss_no_hit (b : Builder) (w : World) (ids : List String) (key : String)
    (hkey : imageID ids = some key) (hmiss : w.metas key = none) :
    ∃ r w', b.CreateLayer w ids = some (r, w') ∧
      ∃ new, w'.events = w.events ++ new ∧ Event.cacheHit key ∉ new := by
  have hnp : ∀ (new : List Event), (∀ e ∈ new, e.isPackager = true) →
      Event.cacheHit key ∉ new := by
    intro new h hmem
    have := h _ hmem
    simp [Event.isPackager] at this
  unfold Builder.CreateLayer
  rw [hkey]
  simp only
  cases h1 : (w.oracle w.tick).openLock with
  | some err => exact ⟨_, _, rfl, [], by simp, by simp⟩
  | none =>
    cases h2 : (w.oracle w.tick).flock with
    | some err => exact ⟨_, _, rfl, [], by simp, by simp⟩
    | none =>
      cases h3 : (w.oracle w.tick).openJSON with
      | some err =>
        exact ⟨_, _, rfl, [.lockAcquired key, .lockReleased key], by simp [World.log], by simp⟩
      | none =>
        simp only [World.log, hmiss]
        cases h4 : (w.oracle w.tick).tempDir with
        | some err =>
          exact ⟨_, _, rfl, [.lockAcquired key, .lockReleased key], by simp, by simp⟩
        | none =>
          simp only
          obtain ⟨-, -, n1, e1, p1⟩ := applyDiffs_frame (w.oracle w.tick) ids
            { metas := w.metas, blobs := w.blobs,
              events := w.events ++ [Event.lockAcquired key], oracle := w.oracle,
              tick := w.tick + 1 }
          rcases h5 : applyDiffs (w.oracle w.tick) ids
            { metas := w.metas, blobs := w.blobs,
              events := w.events ++ [Event.lockAcquired key], oracle := w.oracle,
              tick := w.tick + 1 } with ⟨o, w1⟩
          rw [h5] at e1
          simp only at e1
          cases o with
          | some err =>
            refine ⟨_, _, rfl, [.lockAcquired key] ++ n1 ++ [.lockReleased key], ?_, ?_⟩
            · simp [e1]
            · simp only [List.mem_append, List.mem_singleton, not_or]
              exact ⟨⟨by simp, hnp n1 p1⟩, by simp⟩
          | none =>
            simp only
            obtain ⟨-, n2, e2, p2⟩ := mksquashfs_frame b (w.oracle w.tick) w1
            rcases h6 : b.mksquashfs (w.oracle w.tick) w1 with ⟨o2, w2⟩
            rw [h6] at e2
            simp only at e2
            have hev : ∀ (wf : World), wf.events = w2.events ++ [.lockReleased key] →
                ∃ new, wf.events = w.events ++ new ∧ Event.cacheHit key ∉ new := by
              intro wf hwf
              refine ⟨[.lockAcquired key] ++ n1 ++ n2 ++ [.lockReleased key], ?_, ?_⟩
              · rw [hwf, e2, e1]; simp
              · simp only [List.mem_append, List.mem_singleton, not_or]
                exact ⟨⟨⟨by simp, hnp n1 p1⟩, hnp n2 p2⟩, by simp⟩
            cases o2 with
            | error err => exact ⟨_, _, rfl, hev _ rfl⟩
            | ok layer =>
              simp only
              cases h7 : (w.oracle w.tick).create with
              | some err => exact ⟨_, _, rfl, hev _ rfl⟩
              | none =>
                cases h8 : (w.oracle w.tick).encode with
                | some err =>
                  cases h9 : (w.oracle w.tick).remove with
                  | none => exact ⟨_, _, rfl, hev _ rfl⟩
                  | some err' => exact ⟨_, _, rfl, hev _ rfl⟩
                | none => exact ⟨_, _, rfl, hev _ rfl⟩

/-- On a hit the cache-hit step is taken, once the lease is held and the
record opens. -/
theorem CreateLayer_hit_logs_hit (b : Builder) (w : World) (ids : List String) (key : String)
    (f : MetaFile) (hkey : imageID ids = some key) (hrec : w.metas key = some f)
    (hlock : (w.oracle w.tick).openLock = none) (hflock : (w.oracle w.tick).flock = none)
    (hopen : (w.oracle w.tick).openJSON = none) :
    ∃ r w', b.CreateLayer w ids = some (r, w') ∧
      w'.events = w.events ++ [.lockAcquired key, .cacheHit key, .lockReleased key] ∧
      (∀ e, f.decodeErr = some e → r = .fail (some f.layer) e) ∧
      (f.decodeErr = none → r = .ok f.layer) := by
  unfold Builder.CreateLayer
  rw [hkey]
  simp only [hlock, hflock, hopen, World.log, hrec]
  cases hd : f.decodeErr with
  | none => exact ⟨_, _, rfl, by simp, by simp, by simp⟩
  | some e => exact ⟨_, _, rfl, by simp, by simp, by simp⟩

/-- C8 (as stated, refuted): in a cache directory without records, packaging
succeeds, encoding the metadata record fails and the removal of the file fails
too. `CreateLayer` returns the encoding error, the file the failed `Encode`
left is still the record of the chain, and the next `CreateLayer` on the same
chain is a hit on that record. -/
theorem C8_partial_record_stays_when_remove_fails :
    ∃ w' r w'', sampleBuilder.CreateLayer removeFailWorld ["d1", "d2"]
        = some (.fail none "write: no space left", w') ∧
      Event.mksquashfs ∈ w'.events ∧ w'.blobs "123" = some [1, 2, 3] ∧
      w'.metas "d2" = some ⟨⟨"", 0, [], ""⟩, some "unexpected EOF"⟩ ∧
      sampleBuilder.CreateLayer w' ["d1", "d2"] = some (r, w'') ∧
      Event.cacheHit "d2" ∈ w''.events :=
  ⟨_, _, _, rfl, by decide, rfl, rfl, rfl, by decide⟩

/-- C8 (amended): on a miss where the lease is taken and packaging succeeds, if
creating the metadata file fails, or encoding into it fails, `CreateLayer`
returns that error and leaves every record of another id as it was. When the
creation failed, or the removal after the failed encoding succeeds, the cache
directory holds no record for the chain's terminal id and the next
`CreateLayer` on the same chain takes no cache-hit step, whatever the
environment answers. When the removal fails, its error is discarded, the file
left by the failed encoding is the record of the chain, and the next
`CreateLayer` that takes the lease and opens the record is a hit on it. -/
theorem C8_failed_persist_leaves_no_record_when_removed (b : Builder) (w : World)
    (ids : List String) (key : String) (blob : Blob) (err : Error)
    (hkey : imageID ids = some key)
    (hmiss : w.metas key = none)
    (hlock : (w.oracle w.tick).openLock = none)
    (hflock : (w.oracle w.tick).flock = none)
    (hopen : (w.oracle w.tick).openJSON = none)
    (htmp : (w.oracle w.tick).tempDir = none)
    (hdiff : ∀ id ∈ ids, (w.oracle w.tick).diff id = none ∧ (w.oracle w.tick).untar id = none)
    (htf : (w.oracle w.tick).tempFile = none)
    (htool : (w.oracle w.tick).tool = .ok blob)
    (hcopy : (w.oracle w.tick).copy = none)
    (hren : (w.oracle w.tick).rename = none)
    (hfail : (w.oracle w.tick).create = some err ∨
      ((w.oracle w.tick).create = none ∧ (w.oracle w.tick).encode = some err)) :
    ∃ w', b.CreateLayer w ids = some (.fail none err, w') ∧
      (∀ k, k ≠ key → w'.metas k = w.metas k) ∧
      (((w.oracle w.tick).create = some err ∨ (w.oracle w.tick).remove = none) →
        w'.metas key = none ∧ (∀ k, w'.metas k = w.metas k) ∧
        ∃ r w'', b.CreateLayer w' ids = some (r, w'') ∧
          ∃ new, w''.events = w'.events ++ new ∧ Event.cacheHit key ∉ new) ∧
      ((w.oracle w.tick).create = none → (w.oracle w.tick).remove ≠ none →
        w'.metas key = some (w.oracle w.tick).partialFile ∧
        ((w'.oracle w'.tick).openLock = none → (w'.oracle w'.tick).flock = none →
          (w'.oracle w'.tick).openJSON = none →
          ∃ r w'', b.CreateLayer w' ids = some (r, w'') ∧
            w''.events = w'.events ++ [.lockAcquired key, .cacheHit key, .lockReleased key])) := by
  have hmain : ∃ w', b.CreateLayer w ids = some (.fail none err, w') ∧
      (∀ k, k ≠ key → w'.metas k = w.metas k) ∧
      (((w.oracle w.tick).create = some err ∨ (w.oracle w.tick).remove = none) →
        w'.metas key = none) ∧
      ((w.oracle w.tick).create = none → (w.oracle w.tick).remove ≠ none →
        w'.metas key = some (w.oracle w.tick).partialFile) := by
    unfold Builder.CreateLayer
    rw [hkey]
    simp only [hlock, hflock, hopen, htmp, World.log, hmiss]
    obtain ⟨m1, -, -⟩ := applyDiffs_frame (w.oracle w.tick) ids
      { metas := w.metas, blobs := w.blobs,
        events := w.events ++ [Event.lockAcquired key], oracle := w.oracle,
        tick := w.tick + 1 }
    have ho := applyDiffs_ok (w.oracle w.tick) ids
      { metas := w.metas, blobs := w.blobs,
        events := w.events ++ [Event.lockAcquired key], oracle := w.oracle,
        tick := w.tick + 1 } hdiff
    rcases h5 : applyDiffs (w.oracle w.tick) ids
      { metas := w.metas, blobs := w.blobs,
        events := w.events ++ [Event.lockAcquired key], oracle := w.oracle,
        tick := w.tick + 1 } with ⟨o, w1⟩
    rw [h5] at ho m1
    simp only at ho m1
    subst ho
    simp only [mksquashfs_ok b _ w1 blob htf htool hcopy hren]
    rcases hfail with hc | ⟨hc, he⟩
    · simp only [hc]
      refine ⟨_, rfl, ?_, ?_, ?_⟩
      · intro k _
        simp [World.setBlob, World.log, m1]
      · intro _
        simp [World.setBlob, World.log, m1, hmiss]
      · intro h
        simp at h
    · simp only [hc, he]
      cases hr : (w.oracle w.tick).remove with
      | none =>
        refine ⟨_, rfl, ?_, ?_, ?_⟩
        · intro k hk
          simp [World.setMeta, World.setBlob, World.log, m1, hk]
        · intro _
          simp [World.setMeta, World.setBlob, World.log]
        · intro _ h
          simp at h
      | some e' =>
        refine ⟨_, rfl, ?_, ?_, ?_⟩
        · intro k hk
          simp [World.setMeta, World.setBlob, World.log, m1, hk]
        · intro h
          simp at h
        · intro _ _
          simp [World.setMeta, World.setBlob, World.log]
  obtain ⟨w', h1, h2, h3, h4⟩ := hmain
  refine ⟨w', h1, h2, ?_, ?_⟩
  · intro h
    have hm' : w'.metas key = none := h3 h
    refine ⟨hm', ?_, CreateLayer_miss_no_hit b w' ids key hkey hm'⟩
    intro k
    by_cases hk : k = key
    · rw [hk, hm', hmiss]
    · exact h2 k hk
  · intro hc hr
    refine ⟨h4 hc hr, ?_⟩
    intro a1 a2 a3
    obtain ⟨r, w'', e1, e2, -, -⟩ :=
      CreateLayer_hit_logs_hit b w' ids key _ hkey (h4 hc hr) a1 a2 a3
    exact ⟨r, w'', e1, e2⟩

theorem C8_failed_persist_witness :
    ∃ w', sampleBuilder.CreateLayer encodeFailWorld ["d1", "d2"]
        = some (.fail none "write: no space left", w') ∧
      w'.metas "d2" = none ∧ (∀ k, w'.metas k = encodeFailWorld.metas k) ∧
      (∃ r w'', sampleBuilder.CreateLayer w' ["d1", "d2"] = some (r, w'') ∧
        ∃ new, w''.events = w'.events ++ new ∧ Event.cacheHit "d2" ∉ new) :=
  match C8_failed_persist_leaves_no_record_when_removed sampleBuilder encodeFailWorld
    ["d1", "d2"] "d2" [1, 2, 3] "write: no space left" rfl rfl rfl rfl rfl rfl
    (fun _ _ => ⟨rfl, rfl⟩) rfl rfl rfl rfl (Or.inr ⟨rfl, rfl⟩) with
  | ⟨w', hcall, _, hgone, _⟩ =>
    ⟨w', hcall, (hgone (Or.inr rfl)).1, (hgone (Or.inr rfl)).2.1, (hgone (Or.inr rfl)).2.2⟩

/-! ## Publishing -/

theorem upload_cases (n : Net) (trace : List Action) (data : Body) (url : String) :
    ((upload n trace data url).1 ≠ none ∧ (upload n trace data url).2 = trace) ∨
    ((upload n trace data url).2 = trace ++ [.put data url] ∧
      ((upload n trace data url).1 = none ↔ Answered200 n trace url)) := by
  unfold upload
  cases h1 : n.newRequest url with
  | some err => left; simp
  | none =>
    right
    cases h2 : n.transport trace url with
    | error err => simp [Answered200, h2]
    | ok res =>
      by_cases hs : res.StatusCode = StatusOK
      · simp [Answered200, h2, hs]
      · simp [Answered200, h2, hs]

theorem uploadLayers_spec (n : Net) (w : World) :
    ∀ (rest done : List ImageLayer) (tr0 : List Action)
      (out : Option Error × List ImageLayer × List Action),
      uploadLayers n w rest done tr0 = out →
      (∃ k, k ≤ rest.length ∧ out.2.2 = tr0 ++ (rest.take k).map layerPut ∧
        (out.1 = none → k = rest.length)) ∧
      (∀ i body u, tr0.length ≤ i → out.2.2[i]? = some (.put body u) →
        ¬ Answered200 n (out.2.2.take i) u →
        i + 1 = out.2.2.length ∧ out.1 ≠ none) := by
  intro rest
  induction rest with
  | nil =>
    intro done tr0 out hout
    simp only [uploadLayers] at hout
    subst hout
    refine ⟨⟨0, by simp, by simp, by simp⟩, ?_⟩
    intro i body u hi hget
    simp only at hget
    rw [List.getElem?_eq_none hi] at hget
    simp at hget
  | cons layer rest ih =>
    intro done tr0 out hout
    have hstuck : ∀ (e : Error) (ls : List ImageLayer), out = (some e, ls, tr0) →
        (∃ k, k ≤ (layer :: rest).length ∧
          out.2.2 = tr0 ++ ((layer :: rest).take k).map layerPut ∧
          (out.1 = none → k = (layer :: rest).length)) ∧
        (∀ i body u, tr0.length ≤ i → out.2.2[i]? = some (.put body u) →
          ¬ Answered200 n (out.2.2.take i) u →
          i + 1 = out.2.2.length ∧ out.1 ≠ none) := by
      intro e ls h
      subst h
      refine ⟨⟨0, by simp, by simp, by simp⟩, ?_⟩
      intro i body u hi hget
      simp only at hget
      rw [List.getElem?_eq_none hi] at hget
      simp at hget
    cases hopen : openLayer n w (GoMap.get layer.Hashes "sha512") with
    | some err =>
      simp only [uploadLayers, hopen] at hout
      exact hstuck err _ hout.symm
    | none =>
      rcases hup : upload n tr0 (.file (GoMap.get layer.Hashes "sha512")) (layerURL layer)
        with ⟨e, tr1⟩
      have hcases := upload_cases n tr0 (.file (GoMap.get layer.Hashes "sha512")) (layerURL layer)
      rw [hup] at hcases
      simp only at hcases
      cases e with
      | some err =>
        simp only [uploadLayers, hopen, hup] at hout
        rcases hcases with ⟨-, h2⟩ | ⟨h2, h3⟩
        · subst h2
          exact hstuck err _ hout.symm
        · subst hout
          subst h2
          refine ⟨⟨1, by simp, by simp [layerPut], by simp⟩, ?_⟩
          intro i body u hi hget hbad
          simp only at hget hbad ⊢
          have hlt : i < (tr0 ++ [Action.put (.file (GoMap.get layer.Hashes "sha512"))
              (layerURL layer)]).length := by
            by_contra hge
            rw [List.getElem?_eq_none (by omega)] at hget
            simp at hget
          simp only [List.length_append, List.length_singleton] at hlt ⊢
          exact ⟨by omega, by simp⟩
      | none =>
        simp only [uploadLayers, hopen, hup] at hout
        rcases hcases with ⟨h1, -⟩ | ⟨h2, h3⟩
        · simp at h1
        · subst h2
          have hok : Answered200 n tr0 (layerURL layer) := h3.mp rfl
          obtain ⟨⟨k, hk1, hk2, hk3⟩, hB⟩ := ih _ _ out hout
          refine ⟨⟨k + 1, by simp [hk1], ?_, ?_⟩, ?_⟩
          · rw [hk2]; simp [layerPut]
          · intro h; simp [hk3 h]
          · intro i body u hi hget hbad
            by_cases hi' : i = tr0.length
            · exfalso
              subst hi'
              rw [hk2] at hget hbad
              simp only [List.append_assoc, List.singleton_append] at hget hbad
              rw [List.getElem?_append_right (le_refl _)] at hget
              simp only [Nat.sub_self, List.getElem?_cons_zero, Option.some.injEq,
                Action.put.injEq] at hget
              rw [List.take_left'  rfl] at hbad
              rw [← hget.2] at hbad
              exact hbad hok
            · exact hB i body u (by simp; omega) hget hbad

theorem publish_spec (n : Net) (w : World) (ref : Ref) (image : ImageManifest)
    (rootfs : ImageRootfs) (others : List ImageRootfs) (him : image.Rootfs = rootfs :: others) :
    (publish n w ref image).1 ≠ .panicked ∧
    (∃ data art, (publish n w ref image).2 <+:
      rootfs.Layers.map layerPut ++ [.put (.bytes data) (imageURL n data), .createArtifact art]) ∧
    (∀ i body u, (publish n w ref image).2[i]? = some (.put body u) →
      ¬ Answered200 n ((publish n w ref image).2.take i) u →
      i + 1 = (publish n w ref image).2.length ∧
        ∃ err, (publish n w ref image).1 = .returned (some err)) := by
  have dflt : Artifact := ⟨"", "", "", [], image⟩
  rcases hul : uploadLayers n w rootfs.Layers [] [] with ⟨e, ls, trL⟩
  obtain ⟨⟨k, hk1, hk2, hk3⟩, hB⟩ := uploadLayers_spec n w rootfs.Layers [] [] _ hul
  simp only [List.nil_append, List.length_nil, Nat.zero_le, forall_const] at hk2 hk3 hB
  have hpre : ∀ (data : List Nat) (art : Artifact), trL <+:
      rootfs.Layers.map layerPut ++ [.put (.bytes data) (imageURL n data), .createArtifact art] := by
    intro data art
    rw [hk2]
    refine List.IsPrefix.trans ?_ (List.prefix_append _ _)
    exact List.IsPrefix.map _ (List.take_prefix _ _)
  -- the run stops in the layer loop or at the marshalling, with the layer trace
  have hstop : ∀ err, publish n w ref image = (.returned (some err), trL) →
      (publish n w ref image).1 ≠ .panicked ∧
      (∃ data art, (publish n w ref image).2 <+:
        rootfs.Layers.map layerPut ++ [.put (.bytes data) (imageURL n data), .createArtifact art]) ∧
      (∀ i body u, (publish n w ref image).2[i]? = some (.put body u) →
        ¬ Answered200 n ((publish n w ref image).2.take i) u →
        i + 1 = (publish n w ref image).2.length ∧
          ∃ err, (publish n w ref image).1 = .returned (some err)) := by
    intro err hp
    rw [hp]
    refine ⟨by simp, ⟨[], dflt, hpre _ _⟩, ?_⟩
    intro i body u hget hbad
    exact ⟨(hB i body u hget hbad).1, err, rfl⟩
  cases e with
  | some err =>
    apply hstop err
    simp only [publish, him, hul]
  | none =>
    have hkn := hk3 rfl
    subst hkn
    simp only [List.take_length] at hk2
    cases hm : n.marshal { image with Rootfs := { rootfs with Layers := ls } :: others } with
    | error err =>
      apply hstop err
      simp only [publish, him, hul, hm]
    | ok data =>
      rcases hup : upload n trL (.bytes data) (imageURL n data) with ⟨e2, tr2⟩
      have hcases := upload_cases n trL (.bytes data) (imageURL n data)
      rw [hup] at hcases
      simp only at hcases
      have hlayers : ∀ i body u, i < trL.length → ∀ (extra : List Action),
          (trL ++ extra)[i]? = some (Action.put body u) →
          ¬ Answered200 n ((trL ++ extra).take i) u → False := by
        intro i body u hi extra hget hbad
        rw [List.getElem?_append_left hi] at hget
        rw [List.take_append_of_le_length (le_of_lt hi)] at hbad
        exact (hB i body u hget hbad).2 rfl
      cases e2 with
      | some err =>
        rcases hcases with ⟨-, h2⟩ | ⟨h2, h3⟩
        · subst h2
          apply hstop err
          simp only [publish, him, hul, hm, hup]
        · subst h2
          have hp : publish n w ref image
              = (.returned (some err), trL ++ [.put (.bytes data) (imageURL n data)]) := by
            simp only [publish, him, hul, hm, hup]
          rw [hp]
          refine ⟨by simp, ⟨data, dflt, ?_⟩, ?_⟩
          · rw [hk2]
            exact (List.prefix_append_right_inj _).mpr ⟨[_], rfl⟩
          · intro i body u hget hbad
            simp only at hget hbad ⊢
            refine ⟨?_, err, rfl⟩
            by_cases hi : i < trL.length
            · exact absurd hbad (fun hb => hlayers i body u hi _ hget hb)
            · have hlt : i < (trL ++ [Action.put (.bytes data) (imageURL n data)]).length := by
                by_contra hge
                rw [List.getElem?_eq_none (by omega)] at hget
                simp at hget
              simp only [List.length_append, List.length_singleton] at hlt ⊢
              omega
      | none =>
        rcases hcases with ⟨h1, -⟩ | ⟨h2, h3⟩
        · simp at h1
        · subst h2
          have hok : Answered200 n trL (imageURL n data) := h3.mp rfl
          simp only [publish, him, hul, hm, hup]
          refine ⟨by simp, ⟨data, newArtifact ref
            { image with Rootfs := { rootfs with Layers := ls } :: others }
            (imageURL n data), ?_⟩, ?_⟩
          · rw [hk2, List.append_assoc]
            exact (List.prefix_append_right_inj _).mpr (List.prefix_refl _)
          · intro i body u hget hbad
            exfalso
            rw [List.append_assoc] at hget hbad
            by_cases hi : i < trL.length
            · exact hlayers i body u hi _ hget hbad
            · by_cases hi2 : i = trL.length
              · subst hi2
                rw [List.getElem?_append_right (le_refl _)] at hget
                simp only [Nat.sub_self, List.singleton_append, List.getElem?_cons_zero,
                  Option.some.injEq, Action.put.injEq] at hget
                rw [List.take_left' rfl, ← hget.2] at hbad
                exact hbad hok
              · rw [List.getElem?_append_right (by omega)] at hget
                have : i - trL.length = 1 ∨ 2 ≤ i - trL.length := by omega
                rcases this with h | h
                · rw [h] at hget
                  simp at hget
                · rw [List.getElem?_eq_none (by simpa using h)] at hget
                  simp at hget

theorem Build_result_rootfs (b : Builder) (name : String) (byTags : Bool) (w : World)
    (m : ImageManifest) (h : (b.Build name byTags w).result = some (.ok m)) :
    ∃ layers, m.Rootfs = [⟨DefaultImagePlatform, layers⟩] := by
  unfold Builder.Build at h
  cases hl : b.Context.LookupImage name with
  | error err => rw [hl] at h; simp at h
  | ok image =>
    cases hh : b.Context.History name with
    | error err => rw [hl, hh] at h; simp at h
    | ok history =>
      rw [hl, hh] at h
      simp only at h
      rcases hloop : buildLoop b byTags history.reverse [] [] w with ⟨e, w1, calls⟩
      rw [hloop] at h
      cases e with
      | panicked => simp at h
      | failed err => simp at h
      | done layers =>
        simp only [Option.some.injEq, Except.ok.injEq] at h
        exact ⟨layers, by rw [← h]; rfl⟩

/-- C7: in a run of `run` that gets as far as a built manifest with layers
`l1..ln`, the external actions are a prefix of `[PUT l1, ..., PUT ln, PUT
manifest, CreateArtifact]`, so every layer PUT comes before the manifest PUT;
a PUT that is not answered with status 200 is the last action and `run`
returns an error; and `CreateArtifact` is only performed after all `n + 1`
PUTs, each answered with status 200. -/
theorem C7_run_actions_stop_at_first_failed_put (n : Net) (w : World) (url : String)
    (context : Context) (ref : Ref) (image : ImageManifest)
    (h1 : n.newClient = none) (h2 : n.mkdirDocker = none)
    (h3 : n.buildContext = .ok context) (h4 : n.mkdirLayers = none)
    (h5 : n.newRef url = .ok ref) (h6 : n.pullDocker = none)
    (hb : (Builder.Build ⟨"/var/lib/flynn", context, n.sha512hex⟩ ref.DockerRef false w).result
      = some (.ok image)) :
    ∃ layers, image.Rootfs = [⟨DefaultImagePlatform, layers⟩] ∧
      (∃ data art, (run n w url).2 <+:
        layers.map layerPut ++ [.put (.bytes data) (imageURL n data), .createArtifact art]) ∧
      (∀ i body u, (run n w url).2[i]? = some (.put body u) →
        ¬ Answered200 n ((run n w url).2.take i) u →
        i + 1 = (run n w url).2.length ∧ ∃ err, (run n w url).1 = .returned (some err)) ∧
      (∀ art, .createArtifact art ∈ (run n w url).2 →
        (run n w url).2.length = layers.length + 2 ∧
        ∀ i body u, (run n w url).2[i]? = some (.put body u) →
          Answered200 n ((run n w url).2.take i) u) := by
  obtain ⟨layers, hroot⟩ := Build_result_rootfs _ _ _ _ _ hb
  have hrun : run n w url = publish n
      (Builder.Build ⟨"/var/lib/flynn", context, n.sha512hex⟩ ref.DockerRef false w).world
      ref image := by
    unfold run
    simp only [h1, h2, h3, h4, h5, h6, hb]
  obtain ⟨-, ⟨data, art, hA⟩, hB⟩ := publish_spec n
    (Builder.Build ⟨"/var/lib/flynn", context, n.sha512hex⟩ ref.DockerRef false w).world
    ref image _ _ hroot
  rw [← hrun] at hA hB
  simp only at hA
  refine ⟨layers, hroot, ⟨data, art, hA⟩, hB, ?_⟩
  intro art' hmem
  have hlen : (run n w url).2.length = layers.length + 2 := by
    by_contra hne
    have hle : (run n w url).2.length ≤ layers.length + 2 := by
      have := hA.length_le
      simpa using this
    have hp : (run n w url).2 <+:
        layers.map layerPut ++ [.put (.bytes data) (imageURL n data)] := by
      refine List.prefix_of_prefix_length_le hA ⟨[.createArtifact art], by simp⟩ ?_
      simp only [List.length_append, List.length_map, List.length_singleton]
      omega
    have := hp.subset hmem
    simp [layerPut] at this
  refine ⟨hlen, ?_⟩
  intro i body u hget
  by_contra hbad
  obtain ⟨hi, -⟩ := hB i body u hget hbad
  have heq : (run n w url).2 =
      layers.map layerPut ++ [.put (.bytes data) (imageURL n data), .createArtifact art] :=
    hA.eq_of_length (by simp [hlen])
  rw [heq] at hget
  have hi' : i = layers.length + 1 := by omega
  subst hi'
  rw [List.getElem?_append_right (by simp)] at hget
  simp at hget

theorem C7_run_actions_witness :
    ∃ layers, (assemble sampleImage
        (List.replicate 3 ⟨ImageLayerTypeSquashfs, 3, [("sha512", "123")], ""⟩)).Rootfs
        = [⟨DefaultImagePlatform, layers⟩] ∧
      (∃ data art, (run flakyNet emptyWorld "img").2 <+:
        layers.map layerPut ++
          [.put (.bytes data) (imageURL flakyNet data), .createArtifact art]) ∧
      (∀ i body u, (run flakyNet emptyWorld "img").2[i]? = some (.put body u) →
        ¬ Answered200 flakyNet ((run flakyNet emptyWorld "img").2.take i) u →
        i + 1 = (run flakyNet emptyWorld "img").2.length ∧
          ∃ err, (run flakyNet emptyWorld "img").1 = .returned (some err)) ∧
      (∀ art, .createArtifact art ∈ (run flakyNet emptyWorld "img").2 →
        (run flakyNet emptyWorld "img").2.length = layers.length + 2 ∧
        ∀ i body u, (run flakyNet emptyWorld "img").2[i]? = some (.put body u) →
          Answered200 flakyNet ((run flakyNet emptyWorld "img").2.take i) u) :=
  C7_run_actions_stop_at_first_failed_put flakyNet emptyWorld "img" sampleBuilder.Context
    ⟨"img", "repo", "digest"⟩ _ rfl rfl rfl rfl rfl rfl rfl

end Flynn
